import Mathlib

/-!
Verification of the feed-inventory resolution and partitioned-download
orchestration logic of the gtfsrt-sandbox repository.

The Python sources are shallowly embedded:

* calendar dates are represented by their proleptic-Gregorian ordinal
  (a natural number: days elapsed since 0000-12-31, so 0001-01-01 is 1);
  the source parses ISO "YYYY-MM-DD" strings into datetime values and
  steps them with timedelta(days=1), which is exactly ordinal + 1, and it
  compares ISO date strings lexicographically, which on this format agrees
  with ordinal comparison;
* the local filesystem is a record of the partition directories that exist
  and an association list from data-file paths to their byte sizes;
* the transport layer (urlretrieve) is an oracle parameter mapping each
  target to a success (with a byte size) or one of the two failure kinds
  the source distinguishes (HTTPError and any other exception), each
  failure optionally leaving a partly written file behind;
* Python dicts are association lists with dict-assignment semantics
  (replace in place when the key exists, append otherwise), which
  preserves Python's insertion-order iteration.
-/

/-- Ordinal of a proleptic Gregorian date, mirroring Python datetime
subtraction: toOrdinal y m d - toOrdinal y' m' d' equals
(datetime(y,m,d) - datetime(y',m',d')).days for dates in year 1 onward. -/
def daysBeforeMonth (m : Nat) (leap : Bool) : Nat :=
  let base :=
    match m with
    | 1 => 0
    | 2 => 31
    | 3 => 59
    | 4 => 90
    | 5 => 120
    | 6 => 151
    | 7 => 181
    | 8 => 212
    | 9 => 243
    | 10 => 273
    | 11 => 304
    | _ => 334
  if leap ∧ m > 2 then base + 1 else base

/-- Leap-year test of the Gregorian calendar. -/
def isLeapYear (y : Nat) : Bool :=
  y % 4 == 0 && (y % 100 != 0 || y % 400 == 0)

/-- Gregorian date to ordinal day number (0001-01-01 has ordinal 1). -/
def toOrdinal (y m d : Nat) : Nat :=
  365 * (y - 1) + (y - 1) / 4 + (y - 1) / 400 - (y - 1) / 100
    + daysBeforeMonth m (isLeapYear y) + d

/-- Inclusive day range of download_data.py lines 168-199: the while loop
"current = start; while current <= end: ...; current += timedelta(days=1)"
visits exactly the ordinals start, start+1, ..., end; when start > end the
loop body never runs and the range is empty. -/
def inclusiveDays (s e : Nat) : List Nat :=
  List.range' s (e + 1 - s)

/-- Day count as computed at download_data.py lines 254-256 and 266-267:
"(end - start).days + 1"; on ordinals with s <= e this is e - s + 1. -/
def numDays (s e : Nat) : Nat :=
  e + 1 - s

/-- Codec character table: index 0..63 to the byte value of the
corresponding character of the urlsafe base64 alphabet
(A-Z, a-z, 0-9, minus, underscore). -/
def b64CharOfIndex (i : Nat) : Nat :=
  if i < 26 then 65 + i
  else if i < 52 then 97 + (i - 26)
  else if i < 62 then 48 + (i - 52)
  else if i = 62 then 45
  else 95

/-- Inverse character table: byte value of an alphabet character back to
its 6-bit index; none for bytes outside the urlsafe alphabet. -/
def b64IndexOfChar (c : Nat) : Option Nat :=
  if 65 ≤ c ∧ c ≤ 90 then some (c - 65)
  else if 97 ≤ c ∧ c ≤ 122 then some (26 + (c - 97))
  else if 48 ≤ c ∧ c ≤ 57 then some (52 + (c - 48))
  else if c = 45 then some 62
  else if c = 95 then some 63
  else none

/-- Full urlsafe base64 encoding of a byte list, including the '='
padding characters (byte value 61), as produced by
base64.urlsafe_b64encode: input is consumed in 3-byte groups, each group
becoming 4 output characters, with a short final group padded. -/
def b64EncodeFull : List Nat → List Nat
  | [] => []
  | [a] =>
      [b64CharOfIndex (a / 4), b64CharOfIndex (a % 4 * 16), 61, 61]
  | [a, b] =>
      [b64CharOfIndex (a / 4), b64CharOfIndex (a % 4 * 16 + b / 16),
       b64CharOfIndex (b % 16 * 4), 61]
  | a :: b :: c :: rest =>
      b64CharOfIndex (a / 4) :: b64CharOfIndex (a % 4 * 16 + b / 16) ::
      b64CharOfIndex (b % 16 * 4 + c / 64) :: b64CharOfIndex (c % 64) ::
      b64EncodeFull rest

/-- Trailing-'=' strip, mirroring str.rstrip applied at
download_data.py line 50: removes every trailing padding character. -/
def rstripPad (l : List Nat) : List Nat :=
  (l.reverse.dropWhile (fun c => c == 61)).reverse

/-- Source function encode_base64url (download_data.py lines 48-50 and
prefetch_data.py lines 38-40): urlsafe base64 of the URL's bytes with the
'=' padding stripped.  The URL is modelled as its list of bytes. -/
def encode_base64url (url : List Nat) : List Nat :=
  rstripPad (b64EncodeFull url)

/-- Padding restoration of generate_feed_list.py line 31:
"encoded + '=' * (4 - len(encoded) % 4) if len(encoded) % 4 else encoded". -/
def padToken (l : List Nat) : List Nat :=
  if l.length % 4 = 0 then l else l ++ List.replicate (4 - l.length % 4) 61

/-- Urlsafe base64 decoding of a padded token, 4 characters at a time,
as performed by base64.urlsafe_b64decode on well-formed input; malformed
input (stray padding, wrong alphabet, ragged length) yields none, the
shallow rendering of the decoder's failure. -/
def b64DecodeFull : List Nat → Option (List Nat)
  | [] => some []
  | w :: x :: y :: z :: rest =>
      match b64IndexOfChar w, b64IndexOfChar x with
      | some sw, some sx =>
          if z = 61 then
            if rest.isEmpty then
              if y = 61 then
                some [sw * 4 + sx / 16]
              else
                match b64IndexOfChar y with
                | some sy => some [sw * 4 + sx / 16, sx % 16 * 16 + sy / 4]
                | none => none
          else none
          else
            match b64IndexOfChar y, b64IndexOfChar z, b64DecodeFull rest with
            | some sy, some sz, some tail =>
                some ((sw * 4 + sx / 16) :: (sx % 16 * 16 + sy / 4) ::
                      (sy % 4 * 64 + sz) :: tail)
            | _, _, _ => none
      | _, _ => none
  | _ => none

/-- Source function decode_base64url (generate_feed_list.py lines 29-32):
restore the stripped padding, then base64url-decode. -/
def decode_base64url (token : List Nat) : Option (List Nat) :=
  b64DecodeFull (padToken token)

theorem b64_char_lt_roundtrip : ∀ i < 64, b64IndexOfChar (b64CharOfIndex i) = some i := by decide

theorem b64_char_ne_pad : ∀ i < 64, b64CharOfIndex i ≠ 61 := by decide

theorem rstripPad_eq_self (l : List Nat) (h : ∀ u ∈ l, u ≠ 61) : rstripPad l = l := by
  unfold rstripPad
  rw [List.dropWhile_eq_self_iff.mpr, List.reverse_reverse]
  intro hl
  simp only [beq_iff_eq]
  exact h _ (List.mem_reverse.mp (l.reverse.get_mem 0 hl))

theorem dropWhile_ne_nil_of_exists : ∀ (l : List Nat), (∃ u ∈ l, u ≠ 61) →
    (l.dropWhile (fun c => c == 61)).isEmpty = false := by
  intro l
  induction l with
  | nil =>
    intro h
    rcases h with ⟨u, hu, _⟩
    cases hu
  | cons a l ih =>
    intro h
    rw [List.isEmpty_eq_false_iff_exists_mem] at *
    rw [List.dropWhile_cons]
    by_cases ha : (a == 61) = true
    · rcases h with ⟨u, hu, hne⟩
      rcases List.mem_cons.mp hu with rfl | hu2
      · exact absurd (beq_iff_eq.mp ha) hne
      · simp only [ha, if_true]
        exact ih ⟨u, hu2, hne⟩
    · have ha2 : (a == 61) = false := by
        simpa using ha
      simp only [ha2, Bool.false_eq_true, if_false]
      exact ⟨a, List.mem_cons_self a _⟩

theorem rstripPad_append (l1 l2 : List Nat) (h : ∃ u ∈ l2, u ≠ 61) :
    rstripPad (l1 ++ l2) = l1 ++ rstripPad l2 := by
  unfold rstripPad
  rw [List.reverse_append, List.dropWhile_append]
  have hne : (l2.reverse.dropWhile (fun c => c == 61)).isEmpty = false := by
    apply dropWhile_ne_nil_of_exists
    rcases h with ⟨u, hu, hne⟩
    exact ⟨u, List.mem_reverse.mpr hu, hne⟩
  rw [hne]
  simp [List.reverse_append]

theorem padToken_append4 (l1 l2 : List Nat) (h : l1.length = 4) :
    padToken (l1 ++ l2) = l1 ++ padToken l2 := by
  unfold padToken
  rw [List.length_append, h]
  have h4 : (4 + l2.length) % 4 = l2.length % 4 := by omega
  rw [h4]
  by_cases h2 : l2.length % 4 = 0
  · simp [h2]
  · simp [h2, List.append_assoc]

theorem b64EncodeFull_has_nonpad : ∀ (l : List Nat), l ≠ [] → (∀ b ∈ l, b < 256) →
    ∃ u ∈ b64EncodeFull l, u ≠ 61
  | [], h, _ => absurd rfl h
  | [a], _, hb => by
    refine ⟨b64CharOfIndex (a / 4), by simp [b64EncodeFull], ?_⟩
    have : a < 256 := hb a (by simp)
    exact b64_char_ne_pad _ (by omega)
  | [a, b], _, hb => by
    refine ⟨b64CharOfIndex (a / 4), by simp [b64EncodeFull], ?_⟩
    have : a < 256 := hb a (by simp)
    exact b64_char_ne_pad _ (by omega)
  | a :: b :: c :: rest, _, hb => by
    refine ⟨b64CharOfIndex (a / 4), by simp [b64EncodeFull], ?_⟩
    have : a < 256 := hb a (by simp)
    exact b64_char_ne_pad _ (by omega)

theorem base64url_roundtrip : ∀ (url : List Nat), (∀ b ∈ url, b < 256) →
    decode_base64url (encode_base64url url) = some url
  | [], _ => rfl
  | [a], h => by
    have ha : a < 256 := h a (by simp)
    have h1 : a / 4 < 64 := by omega
    have h2 : a % 4 * 16 < 64 := by omega
    have e1 := b64_char_lt_roundtrip _ h1
    have e2 := b64_char_lt_roundtrip _ h2
    have n1 : (b64CharOfIndex (a / 4) == 61) = false := by
      simpa using b64_char_ne_pad _ h1
    have n2 : (b64CharOfIndex (a % 4 * 16) == 61) = false := by
      simpa using b64_char_ne_pad _ h2
    simp only [encode_base64url, b64EncodeFull, rstripPad, List.reverse_cons,
      List.reverse_nil, List.nil_append, List.cons_append, List.dropWhile_cons]
    norm_num [n1, n2]
    simp [decode_base64url, padToken, b64DecodeFull, e1, e2]
    omega
  | [a, b], h => by
    have ha : a < 256 := h a (by simp)
    have hb : b < 256 := h b (by simp)
    have h1 : a / 4 < 64 := by omega
    have h2 : a % 4 * 16 + b / 16 < 64 := by omega
    have h3 : b % 16 * 4 < 64 := by omega
    have e1 := b64_char_lt_roundtrip _ h1
    have e2 := b64_char_lt_roundtrip _ h2
    have e3 := b64_char_lt_roundtrip _ h3
    have n1 : (b64CharOfIndex (a / 4) == 61) = false := by
      simpa using b64_char_ne_pad _ h1
    have n2 : (b64CharOfIndex (a % 4 * 16 + b / 16) == 61) = false := by
      simpa using b64_char_ne_pad _ h2
    have n3 : (b64CharOfIndex (b % 16 * 4) == 61) = false := by
      simpa using b64_char_ne_pad _ h3
    have y3 : b64CharOfIndex (b % 16 * 4) ≠ 61 := b64_char_ne_pad _ h3
    simp only [encode_base64url, b64EncodeFull, rstripPad, List.reverse_cons,
      List.reverse_nil, List.nil_append, List.cons_append, List.dropWhile_cons]
    norm_num [n1, n2, n3]
    simp [decode_base64url, padToken, b64DecodeFull, e1, e2, e3, y3]
    constructor
    · omega
    · omega
  | a :: b :: c :: rest, h => by
    have ha : a < 256 := h a (by simp)
    have hb : b < 256 := h b (by simp)
    have hc : c < 256 := h c (by simp)
    have hrest : ∀ x ∈ rest, x < 256 := fun x hx => h x (by simp [hx])
    have ih := base64url_roundtrip rest hrest
    have h1 : a / 4 < 64 := by omega
    have h2 : a % 4 * 16 + b / 16 < 64 := by omega
    have h3 : b % 16 * 4 + c / 64 < 64 := by omega
    have h4 : c % 64 < 64 := by omega
    have e1 := b64_char_lt_roundtrip _ h1
    have e2 := b64_char_lt_roundtrip _ h2
    have e3 := b64_char_lt_roundtrip _ h3
    have e4 := b64_char_lt_roundtrip _ h4
    have n4 : b64CharOfIndex (c % 64) ≠ 61 := b64_char_ne_pad _ h4
    have echunk : encode_base64url (a :: b :: c :: rest) =
        [b64CharOfIndex (a / 4), b64CharOfIndex (a % 4 * 16 + b / 16),
         b64CharOfIndex (b % 16 * 4 + c / 64), b64CharOfIndex (c % 64)] ++
        encode_base64url rest := by
      by_cases hr : rest = []
      · subst hr
        apply rstripPad_eq_self
        intro u hu
        simp only [b64EncodeFull, List.mem_cons] at hu
        rcases hu with rfl | rfl | rfl | rfl | hu
        · exact b64_char_ne_pad _ h1
        · exact b64_char_ne_pad _ h2
        · exact b64_char_ne_pad _ h3
        · exact n4
        · cases hu
      · show rstripPad _ = _
        have : b64EncodeFull (a :: b :: c :: rest) =
            [b64CharOfIndex (a / 4), b64CharOfIndex (a % 4 * 16 + b / 16),
             b64CharOfIndex (b % 16 * 4 + c / 64), b64CharOfIndex (c % 64)] ++
            b64EncodeFull rest := by
          simp [b64EncodeFull]
        rw [this, rstripPad_append _ _ (b64EncodeFull_has_nonpad rest hr hrest)]
        rfl
    rw [echunk]
    unfold decode_base64url
    rw [padToken_append4 _ _ (by simp)]
    unfold decode_base64url at ih
    simp only [List.cons_append, List.nil_append, b64DecodeFull, e1, e2, e3, e4, n4,
      if_neg n4, ih, if_false, List.append_eq, List.nil_append]
    simp only [Option.some.injEq, List.cons.injEq]
    refine ⟨by omega, by omega, by omega, trivial⟩

/-- C8: for every URL (modelled as its byte sequence), encoding it with
encode_base64url and then decoding the padding-free token with
decode_base64url returns the original URL; both directions are pure
functions of their input (the embedding has no I/O or network effects). -/
theorem c8_encode_decode_roundtrip (url : List Nat) (h : ∀ b ∈ url, b < 256) :
    decode_base64url (encode_base64url url) = some url :=
  base64url_roundtrip url h

/-- Witness for C8 at the concrete URL bytes of "http". -/
theorem c8_encode_decode_roundtrip_witness :
    decode_base64url (encode_base64url [104, 116, 116, 112]) =
      some [104, 116, 116, 112] :=
  c8_encode_decode_roundtrip [104, 116, 116, 112] (by decide)

/-- Download target: one (feed_type, encoded identifier, calendar day)
unit of work, addressing the partition path
feed_type/date=DATE/base64url=TOKEN/data.parquet. -/
structure Target where
  feedType : String
  token : String
  date : Nat
deriving DecidableEq

/-- Local destination-root state: the set of partition directories that
exist and the data.parquet files that exist, each with its byte size. -/
structure FS where
  dirs : List Target
  files : List (Target × Nat)
deriving DecidableEq

/-- Association-list lookup, the shallow model of Python dict access. -/
def alookup {α β : Type} [DecidableEq α] : List (α × β) → α → Option β
  | [], _ => none
  | (k, v) :: rest, a => if a = k then some v else alookup rest a

/-- Association-list update with Python dict-assignment semantics:
replace in place when the key is already present (keeping its position),
append at the end otherwise. -/
def dictSet {α β : Type} [DecidableEq α] : List (α × β) → α → β → List (α × β)
  | [], a, b => [(a, b)]
  | (k, v) :: rest, a, b =>
      if a = k then (a, b) :: rest else (k, v) :: dictSet rest a b

/-- Model of local_dir.mkdir(parents=True, exist_ok=True) at
download_data.py line 176: ensure the partition directory exists. -/
def mkdirP (t : Target) (fs : FS) : FS :=
  if t ∈ fs.dirs then fs else { fs with dirs := t :: fs.dirs }

/-- Model of a completed urlretrieve write: the data file now exists at
the target path with the given size. -/
def writeFile (t : Target) (size : Nat) (fs : FS) : FS :=
  { fs with files := dictSet fs.files t size }

/-- Model of local_file.unlink() at download_data.py lines 193 and 197. -/
def unlinkFile (t : Target) (fs : FS) : FS :=
  { fs with files := fs.files.filter (fun e => decide (e.1 ≠ t)) }

/-- Transport-layer result for one target, the oracle abstraction of
urlretrieve: success with a byte size, an HTTPError, or any other
exception; a failing transfer may leave a partly written file of some
size at the destination (the "leftover" payload). -/
inductive FetchResult where
  | success (size : Nat)
  | httpError (leftover : Option Nat)
  | exnError (leftover : Option Nat)
deriving DecidableEq

/-- Per-target outcome classification of download_data.py lines 179-197. -/
inductive Outcome where
  | downloaded (size : Nat)
  | skipped
  | failed (wasHttp : Bool)
deriving DecidableEq

/-- Result of one loop-body step: its outcome, whether the transport was
invoked at all, and the filesystem afterwards. -/
structure StepResult where
  out : Outcome
  fetched : Bool
  fs : FS
deriving DecidableEq

/-- Failure handler of download_data.py lines 189-197: if the failed
transfer left a file at the destination path, delete it. -/
def cleanupFailure (t : Target) (leftover : Option Nat) (fs : FS) : FS :=
  let fs1 :=
    match leftover with
    | some sz => writeFile t sz fs
    | none => fs
  if (alookup fs1.files t).isSome then unlinkFile t fs1 else fs1

/-- Loop body of download_feed_data (download_data.py lines 170-197 and
prefetch_data.py lines 62-89, which are identical): make the partition
directory, skip if the data file already exists, otherwise invoke the
transport and classify the result, deleting any partly written file on
failure. -/
def fetchOne (oracle : Target → FetchResult) (t : Target) (fs : FS) : StepResult :=
  let fs1 := mkdirP t fs
  if (alookup fs1.files t).isSome then
    { out := Outcome.skipped, fetched := false, fs := fs1 }
  else
    match oracle t with
    | FetchResult.success size =>
        { out := Outcome.downloaded size, fetched := true, fs := writeFile t size fs1 }
    | FetchResult.httpError leftover =>
        { out := Outcome.failed true, fetched := true, fs := cleanupFailure t leftover fs1 }
    | FetchResult.exnError leftover =>
        { out := Outcome.failed false, fetched := true, fs := cleanupFailure t leftover fs1 }

/-- Sequential execution of a list of targets (the Orchestrator's pass):
each target is processed by the loop body exactly once, in order,
recording its outcome and whether the transport was invoked. -/
def runTargets (oracle : Target → FetchResult) :
    List Target → FS → List (Outcome × Bool) × FS
  | [], fs => ([], fs)
  | t :: ts, fs =>
      let r := fetchOne oracle t fs
      let rest := runTargets oracle ts r.fs
      ((r.out, r.fetched) :: rest.1, rest.2)

/-- Counting loop of download_feed_data over a list of day ordinals,
threading the (downloaded, skipped) counters exactly as the source does:
a failure increments neither counter. -/
def dlGo (oracle : Target → FetchResult) (ft tok : String) :
    List Nat → FS → Nat → Nat → Nat × Nat × FS
  | [], fs, dcount, scount => (dcount, scount, fs)
  | d :: rest, fs, dcount, scount =>
      let r := fetchOne oracle ⟨ft, tok, d⟩ fs
      match r.out with
      | Outcome.downloaded _ => dlGo oracle ft tok rest r.fs (dcount + 1) scount
      | Outcome.skipped => dlGo oracle ft tok rest r.fs dcount (scount + 1)
      | Outcome.failed _ => dlGo oracle ft tok rest r.fs dcount scount

/-- Source function download_feed_data (download_data.py lines 150-201,
prefetch_data.py lines 43-93): iterate the inclusive day range and run
the loop body for each day, returning (downloaded, skipped) counts and
the final filesystem. -/
def download_feed_data (oracle : Target → FetchResult) (ft tok : String)
    (s e : Nat) (fs : FS) : Nat × Nat × FS :=
  dlGo oracle ft tok (inclusiveDays s e) fs 0 0

theorem alookup_dictSet_self {α β : Type} [DecidableEq α] (l : List (α × β)) (a : α) (b : β) :
    alookup (dictSet l a b) a = some b := by
  induction l with
  | nil => simp [dictSet, alookup]
  | cons p rest ih =>
    obtain ⟨k, v⟩ := p
    by_cases h : a = k
    · simp [dictSet, alookup, h]
    · simp [dictSet, alookup, h, ih]

theorem alookup_dictSet_ne {α β : Type} [DecidableEq α] (l : List (α × β)) (a a' : α) (b : β)
    (h : a' ≠ a) : alookup (dictSet l a b) a' = alookup l a' := by
  induction l with
  | nil => simp [dictSet, alookup, h]
  | cons p rest ih =>
    obtain ⟨k, v⟩ := p
    by_cases hk : a = k
    · subst hk
      simp [dictSet, alookup, h]
    · by_cases hk' : a' = k
      · simp [dictSet, alookup, hk, hk']
      · simp [dictSet, alookup, hk, hk', ih]

theorem alookup_none_forall {α β : Type} [DecidableEq α] (l : List (α × β)) (a : α)
    (h : alookup l a = none) : ∀ p ∈ l, p.1 ≠ a := by
  induction l with
  | nil =>
    intro p hp
    cases hp
  | cons q rest ih =>
    obtain ⟨k, v⟩ := q
    intro p hp
    by_cases hk : a = k
    · simp [alookup, hk] at h
    · rcases List.mem_cons.mp hp with rfl | hp2
      · exact fun he => hk he.symm
      · exact ih (by simpa [alookup, hk] using h) p hp2

theorem dictSet_of_none {α β : Type} [DecidableEq α] (l : List (α × β)) (a : α) (b : β)
    (h : alookup l a = none) : dictSet l a b = l ++ [(a, b)] := by
  induction l with
  | nil => rfl
  | cons q rest ih =>
    obtain ⟨k, v⟩ := q
    by_cases hk : a = k
    · simp [alookup, hk] at h
    · simp [dictSet, hk, ih (by simpa [alookup, hk] using h)]

theorem filter_ne_eq_self {α β : Type} [DecidableEq α] (l : List (α × β)) (a : α)
    (h : ∀ p ∈ l, p.1 ≠ a) : l.filter (fun e => decide (e.1 ≠ a)) = l := by
  induction l with
  | nil => rfl
  | cons q rest ih =>
    have hq := h q (List.mem_cons_self q rest)
    simp [List.filter_cons, hq]
    intro a1 b hb
    exact h (a1, b) (List.mem_cons_of_mem q hb)

theorem unlink_write_of_none (t : Target) (sz : Nat) (fs : FS)
    (h : alookup fs.files t = none) : unlinkFile t (writeFile t sz fs) = fs := by
  have hall := alookup_none_forall fs.files t h
  cases fs with
  | mk dirs files =>
    unfold unlinkFile writeFile
    simp only
    congr 1
    rw [dictSet_of_none _ _ _ h, List.filter_append, filter_ne_eq_self _ _ hall]
    simp

theorem cleanupFailure_eq_of_none (t : Target) (lo : Option Nat) (fs : FS)
    (h : alookup fs.files t = none) : cleanupFailure t lo fs = fs := by
  unfold cleanupFailure
  cases lo with
  | none => simp [h]
  | some sz =>
    have hw : alookup (writeFile t sz fs).files t = some sz := alookup_dictSet_self _ _ _
    simp only [hw, Option.isSome_some, if_true]
    exact unlink_write_of_none t sz fs h

theorem mkdirP_files (t : Target) (fs : FS) : (mkdirP t fs).files = fs.files := by
  unfold mkdirP
  split <;> rfl

theorem mkdirP_dirs_self (t : Target) (fs : FS) : t ∈ (mkdirP t fs).dirs := by
  unfold mkdirP
  split
  · assumption
  · exact List.mem_cons_self t _

theorem mkdirP_dirs_mono (t x : Target) (fs : FS) (h : x ∈ fs.dirs) :
    x ∈ (mkdirP t fs).dirs := by
  unfold mkdirP
  split
  · exact h
  · exact List.mem_cons_of_mem t h

theorem fetchOne_skips (o : Target → FetchResult) (t : Target) (fs : FS) (s : Nat)
    (h : alookup fs.files t = some s) :
    fetchOne o t fs = ⟨Outcome.skipped, false, mkdirP t fs⟩ := by
  simp only [fetchOne, mkdirP_files, h, Option.isSome_some, if_true]

theorem cleanupFailure_dirs (t : Target) (lo : Option Nat) (fs : FS) :
    (cleanupFailure t lo fs).dirs = fs.dirs := by
  unfold cleanupFailure
  cases lo <;> simp only <;> split <;> rfl

theorem fetchOne_dirs (o : Target → FetchResult) (t : Target) (fs : FS) :
    (fetchOne o t fs).fs.dirs = (mkdirP t fs).dirs := by
  simp only [fetchOne]
  split
  · rfl
  · split <;> simp [writeFile, cleanupFailure_dirs]

theorem fetchOne_files_preserve (o : Target → FetchResult) (t u : Target) (fs : FS) (s : Nat)
    (h : alookup fs.files u = some s) :
    alookup (fetchOne o t fs).fs.files u = some s := by
  by_cases hp : (alookup fs.files t).isSome
  · rcases Option.isSome_iff_exists.mp hp with ⟨s0, hs0⟩
    rw [fetchOne_skips o t fs s0 hs0]
    simpa [mkdirP_files] using h
  · have ht : alookup fs.files t = none := Option.not_isSome_iff_eq_none.mp hp
    have hm : alookup (mkdirP t fs).files t = none := by
      rw [mkdirP_files]
      exact ht
    have hut : u ≠ t := fun he => by rw [he, ht] at h; cases h
    simp only [fetchOne, hm, Option.isSome_none, Bool.false_eq_true, if_false]
    cases horacle : o t with
    | success size =>
      simp only [writeFile]
      rw [alookup_dictSet_ne _ _ _ _ hut, mkdirP_files]
      exact h
    | httpError lo =>
      dsimp only
      rw [cleanupFailure_eq_of_none t lo _ hm, mkdirP_files]
      exact h
    | exnError lo =>
      dsimp only
      rw [cleanupFailure_eq_of_none t lo _ hm, mkdirP_files]
      exact h

theorem fetchOne_of_none (o : Target → FetchResult) (t : Target) (fs : FS)
    (hm : alookup fs.files t = none) :
    fetchOne o t fs =
      match o t with
      | FetchResult.success size =>
          ⟨Outcome.downloaded size, true, writeFile t size (mkdirP t fs)⟩
      | FetchResult.httpError lo =>
          ⟨Outcome.failed true, true, cleanupFailure t lo (mkdirP t fs)⟩
      | FetchResult.exnError lo =>
          ⟨Outcome.failed false, true, cleanupFailure t lo (mkdirP t fs)⟩ := by
  have hm2 : alookup (mkdirP t fs).files t = none := by
    rw [mkdirP_files]
    exact hm
  simp only [fetchOne, hm2, Option.isSome_none, Bool.false_eq_true, if_false]

theorem fetchOne_downloaded_file (o : Target → FetchResult) (t : Target) (fs : FS) (sz : Nat)
    (h : (fetchOne o t fs).out = Outcome.downloaded sz) :
    alookup (fetchOne o t fs).fs.files t = some sz := by
  by_cases hp : (alookup fs.files t).isSome
  · rcases Option.isSome_iff_exists.mp hp with ⟨s0, hs0⟩
    rw [fetchOne_skips o t fs s0 hs0] at h
    cases h
  · have ht : alookup fs.files t = none := Option.not_isSome_iff_eq_none.mp hp
    rw [fetchOne_of_none o t fs ht] at h ⊢
    revert h
    cases o t with
    | success size =>
      intro h
      dsimp only at h ⊢
      injection h with hsz
      subst hsz
      exact alookup_dictSet_self _ _ _
    | httpError lo =>
      intro h
      exact Outcome.noConfusion h
    | exnError lo =>
      intro h
      exact Outcome.noConfusion h

theorem fetchOne_failed_files (o : Target → FetchResult) (t : Target) (fs : FS) (b : Bool)
    (h : (fetchOne o t fs).out = Outcome.failed b) :
    (fetchOne o t fs).fs.files = fs.files ∧
    alookup (fetchOne o t fs).fs.files t = none := by
  by_cases hp : (alookup fs.files t).isSome
  · rcases Option.isSome_iff_exists.mp hp with ⟨s0, hs0⟩
    rw [fetchOne_skips o t fs s0 hs0] at h
    cases h
  · have ht : alookup fs.files t = none := Option.not_isSome_iff_eq_none.mp hp
    have hm : alookup (mkdirP t fs).files t = none := by
      rw [mkdirP_files]
      exact ht
    rw [fetchOne_of_none o t fs ht] at h ⊢
    revert h
    cases o t with
    | success size =>
      intro h
      exact Outcome.noConfusion h
    | httpError lo =>
      intro h
      dsimp only
      rw [cleanupFailure_eq_of_none t lo _ hm, mkdirP_files]
      exact ⟨rfl, ht⟩
    | exnError lo =>
      intro h
      dsimp only
      rw [cleanupFailure_eq_of_none t lo _ hm, mkdirP_files]
      exact ⟨rfl, ht⟩

theorem fetchOne_new_file (o : Target → FetchResult) (t u : Target) (fs : FS) (s : Nat)
    (h : alookup (fetchOne o t fs).fs.files u = some s) :
    alookup fs.files u = some s ∨
    (u = t ∧ (fetchOne o t fs).out = Outcome.downloaded s) := by
  by_cases hp : (alookup fs.files t).isSome
  · rcases Option.isSome_iff_exists.mp hp with ⟨s0, hs0⟩
    rw [fetchOne_skips o t fs s0 hs0] at h
    rw [mkdirP_files] at h
    exact Or.inl h
  · have ht : alookup fs.files t = none := Option.not_isSome_iff_eq_none.mp hp
    rw [fetchOne_of_none o t fs ht] at h ⊢
    revert h
    cases o t with
    | success size =>
      intro h
      dsimp only at h ⊢
      by_cases hut : u = t
      · subst hut
        have hs : alookup (writeFile u size (mkdirP u fs)).files u = some size :=
          alookup_dictSet_self _ _ _
        rw [hs] at h
        injection h with hsz
        subst hsz
        exact Or.inr ⟨rfl, rfl⟩
      · have hr : alookup (writeFile t size (mkdirP t fs)).files u =
            alookup (mkdirP t fs).files u := alookup_dictSet_ne _ _ _ _ hut
        rw [hr, mkdirP_files] at h
        exact Or.inl h
    | httpError lo =>
      intro h
      dsimp only at h
      rw [cleanupFailure_eq_of_none t lo _ (by rw [mkdirP_files]; exact ht),
        mkdirP_files] at h
      exact Or.inl h
    | exnError lo =>
      intro h
      dsimp only at h
      rw [cleanupFailure_eq_of_none t lo _ (by rw [mkdirP_files]; exact ht),
        mkdirP_files] at h
      exact Or.inl h

theorem cleanupFailure_files_congr (t : Target) (lo : Option Nat) (fs gs : FS)
    (h : fs.files = gs.files) :
    (cleanupFailure t lo fs).files = (cleanupFailure t lo gs).files := by
  unfold cleanupFailure
  cases lo with
  | none =>
    dsimp only
    rw [h]
    split <;> simp [unlinkFile, h]
  | some sz =>
    dsimp only
    have hw : (writeFile t sz fs).files = (writeFile t sz gs).files := by
      simp [writeFile, h]
    rw [hw]
    split <;> simp [unlinkFile, hw]

theorem fetchOne_files_congr (o : Target → FetchResult) (t : Target) (fs gs : FS)
    (h : fs.files = gs.files) :
    (fetchOne o t fs).out = (fetchOne o t gs).out ∧
    (fetchOne o t fs).fetched = (fetchOne o t gs).fetched ∧
    (fetchOne o t fs).fs.files = (fetchOne o t gs).fs.files := by
  by_cases hp : (alookup fs.files t).isSome
  · rcases Option.isSome_iff_exists.mp hp with ⟨s0, hs0⟩
    have hs0g : alookup gs.files t = some s0 := by rw [← h]; exact hs0
    rw [fetchOne_skips o t fs s0 hs0, fetchOne_skips o t gs s0 hs0g]
    exact ⟨rfl, rfl, by rw [mkdirP_files, mkdirP_files]; exact h⟩
  · have ht : alookup fs.files t = none := Option.not_isSome_iff_eq_none.mp hp
    have htg : alookup gs.files t = none := by rw [← h]; exact ht
    rw [fetchOne_of_none o t fs ht, fetchOne_of_none o t gs htg]
    cases o t with
    | success size =>
      refine ⟨rfl, rfl, ?_⟩
      dsimp only
      simp [writeFile, mkdirP_files, h]
    | httpError lo =>
      refine ⟨rfl, rfl, ?_⟩
      dsimp only
      have h1 : (mkdirP t fs).files = (mkdirP t gs).files := by
        rw [mkdirP_files, mkdirP_files]; exact h
      exact cleanupFailure_files_congr t lo _ _ h1
    | exnError lo =>
      refine ⟨rfl, rfl, ?_⟩
      dsimp only
      have h1 : (mkdirP t fs).files = (mkdirP t gs).files := by
        rw [mkdirP_files, mkdirP_files]; exact h
      exact cleanupFailure_files_congr t lo _ _ h1

theorem runTargets_nil (o : Target → FetchResult) (fs : FS) :
    runTargets o [] fs = ([], fs) := rfl

theorem runTargets_cons (o : Target → FetchResult) (t : Target) (ts : List Target) (fs : FS) :
    runTargets o (t :: ts) fs =
      (((fetchOne o t fs).out, (fetchOne o t fs).fetched) ::
         (runTargets o ts (fetchOne o t fs).fs).1,
       (runTargets o ts (fetchOne o t fs).fs).2) := rfl

theorem runTargets_length (o : Target → FetchResult) (ts : List Target) (fs : FS) :
    (runTargets o ts fs).1.length = ts.length := by
  induction ts generalizing fs with
  | nil => rfl
  | cons t ts ih =>
    rw [runTargets_cons]
    simp [ih]

theorem runTargets_files_preserve (o : Target → FetchResult) (ts : List Target) (fs : FS)
    (u : Target) (s : Nat) (h : alookup fs.files u = some s) :
    alookup (runTargets o ts fs).2.files u = some s := by
  induction ts generalizing fs with
  | nil => exact h
  | cons t ts ih =>
    rw [runTargets_cons]
    exact ih _ (fetchOne_files_preserve o t u fs s h)

theorem runTargets_dirs_mono (o : Target → FetchResult) (ts : List Target) (fs : FS)
    (x : Target) (h : x ∈ fs.dirs) : x ∈ (runTargets o ts fs).2.dirs := by
  induction ts generalizing fs with
  | nil => exact h
  | cons t ts ih =>
    rw [runTargets_cons]
    apply ih
    rw [fetchOne_dirs]
    exact mkdirP_dirs_mono t x fs h

theorem runTargets_mem_dirs (o : Target → FetchResult) (ts : List Target) (fs : FS)
    (t : Target) (h : t ∈ ts) : t ∈ (runTargets o ts fs).2.dirs := by
  induction ts generalizing fs with
  | nil => cases h
  | cons t0 ts ih =>
    rw [runTargets_cons]
    rcases List.mem_cons.mp h with rfl | h2
    · apply runTargets_dirs_mono
      rw [fetchOne_dirs]
      exact mkdirP_dirs_self t fs
    · exact ih _ h2

theorem runTargets_downloaded_present (o : Target → FetchResult) (ts : List Target) (fs : FS) :
    ∀ (i sz : Nat) (b : Bool), (runTargets o ts fs).1[i]? = some (Outcome.downloaded sz, b) →
      ∃ t, ts[i]? = some t ∧ alookup (runTargets o ts fs).2.files t = some sz := by
  induction ts generalizing fs with
  | nil =>
    intro i sz b h
    simp [runTargets_nil] at h
  | cons t0 ts ih =>
    intro i sz b h
    rw [runTargets_cons] at h ⊢
    cases i with
    | zero =>
      rw [List.getElem?_cons_zero] at h
      injection h with h1
      have hout : (fetchOne o t0 fs).out = Outcome.downloaded sz := congrArg Prod.fst h1
      refine ⟨t0, by simp, ?_⟩
      exact runTargets_files_preserve o ts _ t0 sz (fetchOne_downloaded_file o t0 fs sz hout)
    | succ j =>
      rw [List.getElem?_cons_succ] at h
      rcases ih _ j sz b h with ⟨t, hts, hfile⟩
      exact ⟨t, by rw [List.getElem?_cons_succ]; exact hts, hfile⟩

theorem runTargets_skips (o : Target → FetchResult) (ts : List Target) (fs : FS) :
    ∀ (i : Nat) (t : Target) (s : Nat), ts[i]? = some t → alookup fs.files t = some s →
      (runTargets o ts fs).1[i]? = some (Outcome.skipped, false) := by
  induction ts generalizing fs with
  | nil =>
    intro i t s h
    simp at h
  | cons t0 ts ih =>
    intro i t s hts hfile
    rw [runTargets_cons]
    cases i with
    | zero =>
      rw [List.getElem?_cons_zero] at hts
      injection hts with h1
      subst h1
      rw [fetchOne_skips o t0 fs s hfile]
      simp
    | succ j =>
      rw [List.getElem?_cons_succ] at hts
      rw [List.getElem?_cons_succ]
      exact ih _ j t s hts (fetchOne_files_preserve o t0 t fs s hfile)

theorem runTargets_files_congr (o : Target → FetchResult) (ts : List Target) (fs gs : FS)
    (h : fs.files = gs.files) :
    (runTargets o ts fs).1 = (runTargets o ts gs).1 ∧
    (runTargets o ts fs).2.files = (runTargets o ts gs).2.files := by
  induction ts generalizing fs gs with
  | nil => exact ⟨rfl, h⟩
  | cons t ts ih =>
    rw [runTargets_cons, runTargets_cons]
    rcases fetchOne_files_congr o t fs gs h with ⟨h1, h2, h3⟩
    rcases ih _ _ h3 with ⟨h4, h5⟩
    exact ⟨by rw [h1, h2, h4], h5⟩

theorem runTargets_new_file (o : Target → FetchResult) (ts : List Target) (fs : FS)
    (t : Target) (s : Nat) (h : alookup (runTargets o ts fs).2.files t = some s) :
    alookup fs.files t = some s ∨
    ∃ (i : Nat) (b : Bool), ts[i]? = some t ∧
      (runTargets o ts fs).1[i]? = some (Outcome.downloaded s, b) := by
  induction ts generalizing fs with
  | nil => exact Or.inl h
  | cons t0 ts ih =>
    rw [runTargets_cons] at h ⊢
    rcases ih _ h with h2 | ⟨i, b, hts, hout⟩
    · rcases fetchOne_new_file o t0 t fs s h2 with h3 | ⟨rfl, h4⟩
      · exact Or.inl h3
      · refine Or.inr ⟨0, (fetchOne o t fs).fetched, by simp, ?_⟩
        rw [List.getElem?_cons_zero, h4]
    · refine Or.inr ⟨i + 1, b, ?_, ?_⟩
      · rw [List.getElem?_cons_succ]
        exact hts
      · rw [List.getElem?_cons_succ]
        exact hout

theorem dlGo_dirs_mono (o : Target → FetchResult) (ft tok : String) (ds : List Nat)
    (fs : FS) (a b : Nat) (x : Target) (h : x ∈ fs.dirs) :
    x ∈ (dlGo o ft tok ds fs a b).2.2.dirs := by
  induction ds generalizing fs a b with
  | nil => exact h
  | cons d ds ih =>
    have hx : x ∈ (fetchOne o ⟨ft, tok, d⟩ fs).fs.dirs := by
      rw [fetchOne_dirs]
      exact mkdirP_dirs_mono _ x fs h
    rcases hout : (fetchOne o ⟨ft, tok, d⟩ fs).out with sz | _ | wb <;>
      simp only [dlGo, hout] <;> exact ih _ _ _ hx

theorem dlGo_mem_dirs (o : Target → FetchResult) (ft tok : String) (ds : List Nat)
    (fs : FS) (a b : Nat) (d : Nat) (h : d ∈ ds) :
    (⟨ft, tok, d⟩ : Target) ∈ (dlGo o ft tok ds fs a b).2.2.dirs := by
  induction ds generalizing fs a b with
  | nil => cases h
  | cons d0 ds ih =>
    rcases List.mem_cons.mp h with rfl | h2
    · have hx : (⟨ft, tok, d⟩ : Target) ∈ (fetchOne o ⟨ft, tok, d⟩ fs).fs.dirs := by
        rw [fetchOne_dirs]
        exact mkdirP_dirs_self _ fs
      rcases hout : (fetchOne o ⟨ft, tok, d⟩ fs).out with sz | _ | wb <;>
        simp only [dlGo, hout] <;> exact dlGo_dirs_mono o ft tok ds _ _ _ _ hx
    · rcases hout : (fetchOne o ⟨ft, tok, d0⟩ fs).out with sz | _ | wb <;>
        simp only [dlGo, hout] <;> exact ih _ _ _ h2

/-- C1: running the per-target operation over the same list of targets
twice against the same destination root yields, on the second run, a
Skipped outcome with no transport invocation at every position that was
successfully Downloaded on the first run, and every data file present
after the first run is still present with the same byte content after the
second run. -/
theorem c1_idempotent_rerun (o : Target → FetchResult) (ts : List Target) (fs0 : FS)
    (i sz : Nat) (b : Bool)
    (h : (runTargets o ts fs0).1[i]? = some (Outcome.downloaded sz, b)) :
    (runTargets o ts (runTargets o ts fs0).2).1[i]? = some (Outcome.skipped, false) ∧
    (∀ (u : Target) (s : Nat),
       alookup (runTargets o ts fs0).2.files u = some s →
       alookup (runTargets o ts (runTargets o ts fs0).2).2.files u = some s) := by
  rcases runTargets_downloaded_present o ts fs0 i sz b h with ⟨t, hts, hfile⟩
  constructor
  · exact runTargets_skips o ts _ i t sz hts hfile
  · intro u s hu
    exact runTargets_files_preserve o ts _ u s hu

/-- Witness for C1: a one-target run that downloads on the first pass and
skips (with no transport call) on the second. -/
theorem c1_idempotent_rerun_witness :
    (runTargets (fun _ => FetchResult.success 7)
        [⟨"vehicle_positions", "tok", 0⟩]
        (runTargets (fun _ => FetchResult.success 7)
          [⟨"vehicle_positions", "tok", 0⟩] ⟨[], []⟩).2).1[0]? =
      some (Outcome.skipped, false) :=
  (c1_idempotent_rerun (fun _ => FetchResult.success 7)
    [⟨"vehicle_positions", "tok", 0⟩] ⟨[], []⟩ 0 7 true (by decide)).1

/-- C2: when the transport fetch for a target fails (HTTP error or any
other exception), no data file exists at the target's path when the
per-target operation returns, and, over a whole run started with no file
at a path, a data file exists there afterwards only if some step fully
downloaded it. -/
theorem c2_failure_cleanup (o : Target → FetchResult) (t : Target) (fs : FS) (b : Bool)
    (hf : (fetchOne o t fs).out = Outcome.failed b) :
    alookup (fetchOne o t fs).fs.files t = none ∧
    (∀ (ts : List Target) (fs0 : FS) (u : Target) (s : Nat),
       alookup fs0.files u = none →
       alookup (runTargets o ts fs0).2.files u = some s →
       ∃ (i : Nat) (bb : Bool), ts[i]? = some u ∧
         (runTargets o ts fs0).1[i]? = some (Outcome.downloaded s, bb)) := by
  constructor
  · exact (fetchOne_failed_files o t fs b hf).2
  · intro ts fs0 u s hnone hsome
    rcases runTargets_new_file o ts fs0 u s hsome with h2 | ⟨i, bb, h1, h2⟩
    · rw [hnone] at h2
      cases h2
    · exact ⟨i, bb, h1, h2⟩

/-- Witness for C2: an HTTP failure that left a partly written file
behind still results in no file at the target path. -/
theorem c2_failure_cleanup_witness :
    alookup (fetchOne (fun _ => FetchResult.httpError (some 7))
        ⟨"trip_updates", "tk", 2⟩ ⟨[], []⟩).fs.files ⟨"trip_updates", "tk", 2⟩ = none :=
  (c2_failure_cleanup (fun _ => FetchResult.httpError (some 7))
    ⟨"trip_updates", "tk", 2⟩ ⟨[], []⟩ true (by decide)).1

/-- C3: a target whose fetch fails only has its failure recorded: the
outcomes of all subsequent targets are exactly those of a run without the
failed target, the resulting data files are the same, and every target
still receives an outcome (the run completes). -/
theorem c3_failure_isolation (o : Target → FetchResult) (t : Target) (ts : List Target)
    (fs : FS) (b : Bool) (hf : (fetchOne o t fs).out = Outcome.failed b) :
    (runTargets o (t :: ts) fs).1 =
      (Outcome.failed b, (fetchOne o t fs).fetched) :: (runTargets o ts fs).1 ∧
    (runTargets o (t :: ts) fs).2.files = (runTargets o ts fs).2.files ∧
    (runTargets o (t :: ts) fs).1.length = ts.length + 1 := by
  have hfiles : (fetchOne o t fs).fs.files = fs.files := (fetchOne_failed_files o t fs b hf).1
  rcases runTargets_files_congr o ts _ _ hfiles with ⟨h1, h2⟩
  refine ⟨?_, ?_, ?_⟩
  · rw [runTargets_cons, hf, h1]
  · rw [runTargets_cons]
    exact h2
  · rw [runTargets_length]
    simp

/-- Witness for C3 with a concrete oracle failing on day 0 only. -/
theorem c3_failure_isolation_witness :
    (runTargets (fun u => if u.date = 0 then FetchResult.exnError none else FetchResult.success 9)
        (⟨"vp", "k", 0⟩ :: [⟨"vp", "k", 1⟩]) ⟨[], []⟩).1 =
      (Outcome.failed false,
        (fetchOne (fun u => if u.date = 0 then FetchResult.exnError none else FetchResult.success 9)
          ⟨"vp", "k", 0⟩ ⟨[], []⟩).fetched) ::
        (runTargets (fun u => if u.date = 0 then FetchResult.exnError none else FetchResult.success 9)
          [⟨"vp", "k", 1⟩] ⟨[], []⟩).1 :=
  (c3_failure_isolation
    (fun u => if u.date = 0 then FetchResult.exnError none else FetchResult.success 9)
    ⟨"vp", "k", 0⟩ [⟨"vp", "k", 1⟩] ⟨[], []⟩ false (by decide)).1

/-- C10: the fetch loop creates the destination partition directory for
every day of the requested range before checking file existence, so after
any run the directory exists for every target of the range, whatever the
outcome; and directories present before the run are never removed
(failure cleanup deletes only the data file). -/
theorem c10_partition_dirs (o : Target → FetchResult) (ft tok : String) (s e : Nat)
    (fs : FS) :
    (∀ d : Nat, s ≤ d → d ≤ e →
       (⟨ft, tok, d⟩ : Target) ∈ (download_feed_data o ft tok s e fs).2.2.dirs) ∧
    (∀ x : Target, x ∈ fs.dirs → x ∈ (download_feed_data o ft tok s e fs).2.2.dirs) := by
  constructor
  · intro d h1 h2
    apply dlGo_mem_dirs
    unfold inclusiveDays
    rw [List.mem_range'_1]
    omega
  · intro x hx
    exact dlGo_dirs_mono o ft tok _ fs 0 0 x hx

/-- Witness for C10: the partition directory of day 4 exists even though
every transport call fails. -/
theorem c10_partition_dirs_witness :
    (⟨"vehicle_positions", "tok", 4⟩ : Target) ∈
      (download_feed_data (fun _ => FetchResult.httpError (some 5))
        "vehicle_positions" "tok" 3 5 ⟨[], []⟩).2.2.dirs :=
  (c10_partition_dirs (fun _ => FetchResult.httpError (some 5))
    "vehicle_positions" "tok" 3 5 ⟨[], []⟩).1 4 (by decide) (by decide)

/-- C6 (amended): when start > end the day iteration is empty and the
download loop completes normally with zero downloads and zero skips (the
code has no InvalidRange error); when start <= end the iteration yields
each date of the inclusive range exactly once in strictly ascending
order, and its length is the day count (end - start) + 1. -/
theorem c6_day_range_behavior (s e : Nat) :
    (s > e → inclusiveDays s e = [] ∧
       ∀ (o : Target → FetchResult) (ft tok : String) (fs : FS),
         download_feed_data o ft tok s e fs = (0, 0, fs)) ∧
    (s ≤ e →
       (inclusiveDays s e).length = numDays s e ∧
       (inclusiveDays s e).Nodup ∧
       List.Pairwise (· < ·) (inclusiveDays s e) ∧
       (∀ d : Nat, d ∈ inclusiveDays s e ↔ s ≤ d ∧ d ≤ e)) := by
  constructor
  · intro hgt
    have h0 : e + 1 - s = 0 := by omega
    have hnil : inclusiveDays s e = [] := by
      unfold inclusiveDays
      rw [h0]
      rfl
    refine ⟨hnil, ?_⟩
    intro o ft tok fs
    unfold download_feed_data
    rw [hnil]
    rfl
  · intro hle
    refine ⟨?_, ?_, ?_, ?_⟩
    · simp [inclusiveDays, numDays]
    · exact List.nodup_range' s _
    · exact List.pairwise_lt_range' s _
    · intro d
      unfold inclusiveDays
      rw [List.mem_range'_1]
      omega

/-- Witness for C6 at the concrete range 2..4. -/
theorem c6_day_range_behavior_witness :
    (inclusiveDays 2 4).length = numDays 2 4 :=
  ((c6_day_range_behavior 2 4).2 (by decide)).1

/-- C6 counterexample: with start 10 greater than end 8 the code does not
fail with any error; the loop guard makes the range empty and the
operation returns (0, 0) leaving the filesystem untouched, so planning is
not aborted. -/
theorem c6_counterexample :
    inclusiveDays 10 8 = [] ∧
    download_feed_data (fun _ => FetchResult.success 1) "vehicle_positions" "tok" 10 8
        ⟨[], []⟩ = (0, 0, ⟨[], []⟩) :=
  ⟨rfl, rfl⟩

/-- Feed record of the remote inventory (one entry of inventory.json):
identifiers, display names, feed type, encoded identifier, inclusive date
coverage (as day ordinals) and cumulative size. -/
structure FeedRecord where
  agency_id : String
  agency_name : String
  system_id : Option String
  system_name : Option String
  feed_type : String
  base64url : String
  date_min : Nat
  date_max : Nat
  total_bytes : Nat
deriving DecidableEq

/-- Per-system grouping value of get_agencies: display name, feed_type
slots, aggregate date bounds. -/
structure SystemInfo where
  name : Option String
  feeds : List (String × FeedRecord)
  date_min : Nat
  date_max : Nat
deriving DecidableEq

/-- Per-agency grouping value of get_agencies: display name, system map,
aggregate date bounds. -/
structure AgencyInfo where
  name : String
  systems : List (Option String × SystemInfo)
  date_min : Nat
  date_max : Nat
deriving DecidableEq

/-- Fresh system entry created at download_data.py lines 78-84. -/
def freshSystem (r : FeedRecord) : SystemInfo :=
  { name := r.system_name, feeds := [], date_min := r.date_min, date_max := r.date_max }

/-- Fresh agency entry created at download_data.py lines 70-76. -/
def freshAgency (r : FeedRecord) : AgencyInfo :=
  { name := r.agency_name, systems := [], date_min := r.date_min, date_max := r.date_max }

/-- System update of one loop iteration (download_data.py lines 86-89):
install the record in its feed_type slot, widen the system date bounds. -/
def stepSystem (sys : SystemInfo) (r : FeedRecord) : SystemInfo :=
  { sys with
    feeds := dictSet sys.feeds r.feed_type r,
    date_min := min sys.date_min r.date_min,
    date_max := max sys.date_max r.date_max }

/-- Agency update of one loop iteration (download_data.py lines 78-93):
create the system entry if absent, update it, widen the agency bounds. -/
def stepAgency (a : AgencyInfo) (r : FeedRecord) : AgencyInfo :=
  { a with
    systems := dictSet a.systems r.system_id
      (stepSystem ((alookup a.systems r.system_id).getD (freshSystem r)) r),
    date_min := min a.date_min r.date_min,
    date_max := max a.date_max r.date_max }

/-- One full iteration of the get_agencies loop for one record
(download_data.py lines 66-93). -/
def stepRecord (agencies : List (String × AgencyInfo)) (r : FeedRecord) :
    List (String × AgencyInfo) :=
  dictSet agencies r.agency_id
    (stepAgency ((alookup agencies r.agency_id).getD (freshAgency r)) r)

/-- Source function get_agencies (download_data.py lines 63-95): group
the inventory by agency_id and system_id. -/
def get_agencies (inventory : List FeedRecord) : List (String × AgencyInfo) :=
  inventory.foldl stepRecord []

/-- Records of the inventory belonging to one agency, in input order. -/
def recsForAgency (l : List FeedRecord) (aid : String) : List FeedRecord :=
  l.filter (fun r => decide (r.agency_id = aid))

/-- Records of the inventory belonging to one agency and system. -/
def recsForSystem (l : List FeedRecord) (aid : String) (sid : Option String) :
    List FeedRecord :=
  l.filter (fun r => decide (r.agency_id = aid ∧ r.system_id = sid))

/-- Records of the inventory with an exact (agency, system, feed_type)
triple, in input order. -/
def recsForTriple (l : List FeedRecord) (aid : String) (sid : Option String)
    (ft : String) : List FeedRecord :=
  l.filter (fun r => decide (r.agency_id = aid ∧ r.system_id = sid ∧ r.feed_type = ft))

/-- Minimum of a list of naturals, none when empty. -/
def aggMin (xs : List Nat) : Option Nat :=
  match xs with
  | [] => none
  | x :: rest => some (rest.foldl min x)

/-- Maximum of a list of naturals, none when empty. -/
def aggMax (xs : List Nat) : Option Nat :=
  match xs with
  | [] => none
  | x :: rest => some (rest.foldl max x)

/-- System map of an agency lookup, as one composite query. -/
def sysLookup (l : List FeedRecord) (aid : String) (sid : Option String) :
    Option SystemInfo :=
  (alookup (get_agencies l) aid).bind (fun a => alookup a.systems sid)

/-- Feed slot of a system lookup, as one composite query. -/
def feedLookup (l : List FeedRecord) (aid : String) (sid : Option String)
    (ft : String) : Option FeedRecord :=
  (sysLookup l aid sid).bind (fun sys => alookup sys.feeds ft)

theorem get_agencies_append (l : List FeedRecord) (r : FeedRecord) :
    get_agencies (l ++ [r]) = stepRecord (get_agencies l) r := by
  simp [get_agencies, List.foldl_append]

theorem aggMin_append (xs : List Nat) (y : Nat) :
    aggMin (xs ++ [y]) = some ((aggMin xs).elim y (fun m => min m y)) := by
  cases xs with
  | nil => rfl
  | cons x rest => simp [aggMin, List.foldl_append]

theorem aggMax_append (xs : List Nat) (y : Nat) :
    aggMax (xs ++ [y]) = some ((aggMax xs).elim y (fun m => max m y)) := by
  cases xs with
  | nil => rfl
  | cons x rest => simp [aggMax, List.foldl_append]

theorem recsForAgency_append (l : List FeedRecord) (r : FeedRecord) (aid : String) :
    recsForAgency (l ++ [r]) aid =
      recsForAgency l aid ++ (if r.agency_id = aid then [r] else []) := by
  by_cases h : r.agency_id = aid <;> simp [recsForAgency, List.filter_append, h]

theorem recsForSystem_append (l : List FeedRecord) (r : FeedRecord) (aid : String)
    (sid : Option String) :
    recsForSystem (l ++ [r]) aid sid =
      recsForSystem l aid sid ++
        (if r.agency_id = aid ∧ r.system_id = sid then [r] else []) := by
  by_cases h : r.agency_id = aid ∧ r.system_id = sid <;>
    simp [recsForSystem, List.filter_append, h]

theorem recsForTriple_append (l : List FeedRecord) (r : FeedRecord) (aid : String)
    (sid : Option String) (ft : String) :
    recsForTriple (l ++ [r]) aid sid ft =
      recsForTriple l aid sid ft ++
        (if r.agency_id = aid ∧ r.system_id = sid ∧ r.feed_type = ft then [r] else []) := by
  by_cases h : r.agency_id = aid ∧ r.system_id = sid ∧ r.feed_type = ft <;>
    simp [recsForTriple, List.filter_append, h]

theorem agencyLookup_append_eq (l : List FeedRecord) (r : FeedRecord) :
    alookup (get_agencies (l ++ [r])) r.agency_id =
      some (stepAgency ((alookup (get_agencies l) r.agency_id).getD (freshAgency r)) r) := by
  rw [get_agencies_append]
  unfold stepRecord
  exact alookup_dictSet_self _ _ _

theorem agencyLookup_append_ne (l : List FeedRecord) (r : FeedRecord) (aid : String)
    (h : aid ≠ r.agency_id) :
    alookup (get_agencies (l ++ [r])) aid = alookup (get_agencies l) aid := by
  rw [get_agencies_append]
  unfold stepRecord
  exact alookup_dictSet_ne _ _ _ _ h

theorem sysLookup_append_eq (l : List FeedRecord) (r : FeedRecord) :
    sysLookup (l ++ [r]) r.agency_id r.system_id =
      some (stepSystem ((sysLookup l r.agency_id r.system_id).getD (freshSystem r)) r) := by
  unfold sysLookup
  rw [agencyLookup_append_eq]
  cases halo : alookup (get_agencies l) r.agency_id with
  | none =>
    simp [stepAgency, freshAgency, alookup_dictSet_self, alookup]
  | some a =>
    simp only [Option.getD_some, Option.some_bind, stepAgency]
    rw [alookup_dictSet_self]

theorem sysLookup_append_ne (l : List FeedRecord) (r : FeedRecord) (aid : String)
    (sid : Option String) (h : ¬(aid = r.agency_id ∧ sid = r.system_id)) :
    sysLookup (l ++ [r]) aid sid = sysLookup l aid sid := by
  unfold sysLookup
  by_cases hid : aid = r.agency_id
  · subst hid
    have hsid : sid ≠ r.system_id := fun he => h ⟨rfl, he⟩
    rw [agencyLookup_append_eq]
    cases halo : alookup (get_agencies l) r.agency_id with
    | none =>
      simp only [Option.getD_none, Option.some_bind, Option.none_bind, stepAgency]
      rw [alookup_dictSet_ne _ _ _ _ hsid]
      simp [freshAgency, alookup]
    | some a =>
      simp only [Option.getD_some, Option.some_bind, stepAgency]
      rw [alookup_dictSet_ne _ _ _ _ hsid]
  · rw [agencyLookup_append_ne l r aid hid]

theorem feedLookup_append_eq (l : List FeedRecord) (r : FeedRecord) :
    feedLookup (l ++ [r]) r.agency_id r.system_id r.feed_type = some r := by
  unfold feedLookup
  rw [sysLookup_append_eq]
  simp only [Option.some_bind, stepSystem]
  exact alookup_dictSet_self _ _ _

theorem feedLookup_append_ne (l : List FeedRecord) (r : FeedRecord) (aid : String)
    (sid : Option String) (ft : String)
    (h : ¬(aid = r.agency_id ∧ sid = r.system_id ∧ ft = r.feed_type)) :
    feedLookup (l ++ [r]) aid sid ft = feedLookup l aid sid ft := by
  unfold feedLookup
  by_cases hs : aid = r.agency_id ∧ sid = r.system_id
  · obtain ⟨h1, h2⟩ := hs
    subst h1
    subst h2
    have hft : ft ≠ r.feed_type := fun he => h ⟨rfl, rfl, he⟩
    rw [sysLookup_append_eq]
    simp only [Option.some_bind, stepSystem]
    rw [alookup_dictSet_ne _ _ _ _ hft]
    cases hsl : sysLookup l r.agency_id r.system_id with
    | none => simp [freshSystem, alookup]
    | some sys => simp
  · rw [sysLookup_append_ne l r aid sid hs]

theorem feedLookup_char (l : List FeedRecord) (aid : String) (sid : Option String)
    (ft : String) :
    feedLookup l aid sid ft = (recsForTriple l aid sid ft).getLast? := by
  induction l using List.reverseRecOn with
  | nil => rfl
  | append_singleton l r ih =>
    rw [recsForTriple_append]
    by_cases h : r.agency_id = aid ∧ r.system_id = sid ∧ r.feed_type = ft
    · obtain ⟨h1, h2, h3⟩ := h
      subst h1
      subst h2
      subst h3
      rw [feedLookup_append_eq]
      simp [List.getLast?_concat]
    · have h2 : ¬(aid = r.agency_id ∧ sid = r.system_id ∧ ft = r.feed_type) := by
        intro ha
        exact h ⟨ha.1.symm, ha.2.1.symm, ha.2.2.symm⟩
      rw [feedLookup_append_ne l r aid sid ft h2, if_neg h]
      simp [ih]

theorem agencyLookup_name_char (l : List FeedRecord) (aid : String) :
    (alookup (get_agencies l) aid).map AgencyInfo.name =
      ((recsForAgency l aid).head?).map FeedRecord.agency_name := by
  induction l using List.reverseRecOn with
  | nil => rfl
  | append_singleton l r ih =>
    rw [recsForAgency_append]
    by_cases hid : r.agency_id = aid
    · subst hid
      rw [agencyLookup_append_eq, if_pos rfl]
      cases halo : alookup (get_agencies l) r.agency_id with
      | none =>
        rw [halo] at ih
        have hnil : recsForAgency l r.agency_id = [] := by
          cases hxs : recsForAgency l r.agency_id with
          | nil => rfl
          | cons x xs =>
            rw [hxs] at ih
            simp at ih
        rw [hnil]
        simp [stepAgency, freshAgency]
      | some a =>
        rw [halo] at ih
        cases hxs : recsForAgency l r.agency_id with
        | nil =>
          rw [hxs] at ih
          simp at ih
        | cons x xs =>
          rw [hxs] at ih
          simp only [Option.map_some, List.head?_cons] at ih
          injection ih with ih1
          simp [stepAgency, ih1]
    · rw [agencyLookup_append_ne l r aid (fun he => hid he.symm), if_neg hid]
      simp [ih]

theorem agencyLookup_dmin_char (l : List FeedRecord) (aid : String) :
    (alookup (get_agencies l) aid).map AgencyInfo.date_min =
      aggMin ((recsForAgency l aid).map FeedRecord.date_min) := by
  induction l using List.reverseRecOn with
  | nil => rfl
  | append_singleton l r ih =>
    rw [recsForAgency_append]
    by_cases hid : r.agency_id = aid
    · subst hid
      rw [agencyLookup_append_eq, if_pos rfl, List.map_append]
      simp only [List.map_cons, List.map_nil]
      rw [aggMin_append]
      cases halo : alookup (get_agencies l) r.agency_id with
      | none =>
        rw [halo] at ih
        simp only [Option.map_none'] at ih
        rw [← ih]
        simp [stepAgency, freshAgency]
      | some a =>
        rw [halo] at ih
        simp only [Option.map_some'] at ih
        rw [← ih]
        simp [stepAgency]
    · rw [agencyLookup_append_ne l r aid (fun he => hid he.symm), if_neg hid]
      simp [ih]

theorem agencyLookup_dmax_char (l : List FeedRecord) (aid : String) :
    (alookup (get_agencies l) aid).map AgencyInfo.date_max =
      aggMax ((recsForAgency l aid).map FeedRecord.date_max) := by
  induction l using List.reverseRecOn with
  | nil => rfl
  | append_singleton l r ih =>
    rw [recsForAgency_append]
    by_cases hid : r.agency_id = aid
    · subst hid
      rw [agencyLookup_append_eq, if_pos rfl, List.map_append]
      simp only [List.map_cons, List.map_nil]
      rw [aggMax_append]
      cases halo : alookup (get_agencies l) r.agency_id with
      | none =>
        rw [halo] at ih
        simp only [Option.map_none'] at ih
        rw [← ih]
        simp [stepAgency, freshAgency]
      | some a =>
        rw [halo] at ih
        simp only [Option.map_some'] at ih
        rw [← ih]
        simp [stepAgency]
    · rw [agencyLookup_append_ne l r aid (fun he => hid he.symm), if_neg hid]
      simp [ih]

theorem sysLookup_name_char (l : List FeedRecord) (aid : String) (sid : Option String) :
    (sysLookup l aid sid).map SystemInfo.name =
      ((recsForSystem l aid sid).head?).map FeedRecord.system_name := by
  induction l using List.reverseRecOn with
  | nil => rfl
  | append_singleton l r ih =>
    rw [recsForSystem_append]
    by_cases hid : r.agency_id = aid ∧ r.system_id = sid
    · obtain ⟨h1, h2⟩ := hid
      subst h1
      subst h2
      rw [sysLookup_append_eq, if_pos ⟨rfl, rfl⟩]
      cases hsl : sysLookup l r.agency_id r.system_id with
      | none =>
        rw [hsl] at ih
        simp only [Option.map_none'] at ih
        have hnil : recsForSystem l r.agency_id r.system_id = [] := by
          cases hxs : recsForSystem l r.agency_id r.system_id with
          | nil => rfl
          | cons x xs =>
            rw [hxs] at ih
            simp at ih
        rw [hnil]
        simp [stepSystem, freshSystem]
      | some sys =>
        rw [hsl] at ih
        cases hxs : recsForSystem l r.agency_id r.system_id with
        | nil =>
          rw [hxs] at ih
          simp at ih
        | cons x xs =>
          rw [hxs] at ih
          simp only [Option.map_some', List.head?_cons] at ih
          injection ih with ih1
          simp [stepSystem, ih1]
    · rw [sysLookup_append_ne l r aid sid (fun ha => hid ⟨ha.1.symm, ha.2.symm⟩), if_neg hid]
      simp [ih]

theorem sysLookup_dmin_char (l : List FeedRecord) (aid : String) (sid : Option String) :
    (sysLookup l aid sid).map SystemInfo.date_min =
      aggMin ((recsForSystem l aid sid).map FeedRecord.date_min) := by
  induction l using List.reverseRecOn with
  | nil => rfl
  | append_singleton l r ih =>
    rw [recsForSystem_append]
    by_cases hid : r.agency_id = aid ∧ r.system_id = sid
    · obtain ⟨h1, h2⟩ := hid
      subst h1
      subst h2
      rw [sysLookup_append_eq, if_pos ⟨rfl, rfl⟩, List.map_append]
      simp only [List.map_cons, List.map_nil]
      rw [aggMin_append]
      cases hsl : sysLookup l r.agency_id r.system_id with
      | none =>
        rw [hsl] at ih
        simp only [Option.map_none'] at ih
        rw [← ih]
        simp [stepSystem, freshSystem]
      | some sys =>
        rw [hsl] at ih
        simp only [Option.map_some'] at ih
        rw [← ih]
        simp [stepSystem]
    · rw [sysLookup_append_ne l r aid sid (fun ha => hid ⟨ha.1.symm, ha.2.symm⟩), if_neg hid]
      simp [ih]

theorem sysLookup_dmax_char (l : List FeedRecord) (aid : String) (sid : Option String) :
    (sysLookup l aid sid).map SystemInfo.date_max =
      aggMax ((recsForSystem l aid sid).map FeedRecord.date_max) := by
  induction l using List.reverseRecOn with
  | nil => rfl
  | append_singleton l r ih =>
    rw [recsForSystem_append]
    by_cases hid : r.agency_id = aid ∧ r.system_id = sid
    · obtain ⟨h1, h2⟩ := hid
      subst h1
      subst h2
      rw [sysLookup_append_eq, if_pos ⟨rfl, rfl⟩, List.map_append]
      simp only [List.map_cons, List.map_nil]
      rw [aggMax_append]
      cases hsl : sysLookup l r.agency_id r.system_id with
      | none =>
        rw [hsl] at ih
        simp only [Option.map_none'] at ih
        rw [← ih]
        simp [stepSystem, freshSystem]
      | some sys =>
        rw [hsl] at ih
        simp only [Option.map_some'] at ih
        rw [← ih]
        simp [stepSystem]
    · rw [sysLookup_append_ne l r aid sid (fun ha => hid ⟨ha.1.symm, ha.2.symm⟩), if_neg hid]
      simp [ih]

/-- C9: in the index built by get_agencies, display names (agency and
system) come from the first record of that agency (or agency+system) in
input order, the aggregate date bounds are the minimum and maximum over
all contributing records, and the per-feed_type slot holds the last
record with that exact (agency, system, feed_type) triple. -/
theorem c9_grouping_characterization (l : List FeedRecord) (aid : String)
    (sid : Option String) (ft : String) :
    ((alookup (get_agencies l) aid).map AgencyInfo.name =
       ((recsForAgency l aid).head?).map FeedRecord.agency_name) ∧
    ((alookup (get_agencies l) aid).map AgencyInfo.date_min =
       aggMin ((recsForAgency l aid).map FeedRecord.date_min)) ∧
    ((alookup (get_agencies l) aid).map AgencyInfo.date_max =
       aggMax ((recsForAgency l aid).map FeedRecord.date_max)) ∧
    ((sysLookup l aid sid).map SystemInfo.name =
       ((recsForSystem l aid sid).head?).map FeedRecord.system_name) ∧
    ((sysLookup l aid sid).map SystemInfo.date_min =
       aggMin ((recsForSystem l aid sid).map FeedRecord.date_min)) ∧
    ((sysLookup l aid sid).map SystemInfo.date_max =
       aggMax ((recsForSystem l aid sid).map FeedRecord.date_max)) ∧
    (feedLookup l aid sid ft = (recsForTriple l aid sid ft).getLast?) :=
  ⟨agencyLookup_name_char l aid, agencyLookup_dmin_char l aid,
   agencyLookup_dmax_char l aid, sysLookup_name_char l aid sid,
   sysLookup_dmin_char l aid sid, sysLookup_dmax_char l aid sid,
   feedLookup_char l aid sid ft⟩

/-- Accumulator step for expressing aggMin as a left fold. -/
def optMin (acc : Option Nat) (v : Nat) : Option Nat :=
  some (acc.elim v (fun m => min m v))

/-- Accumulator step for expressing aggMax as a left fold. -/
def optMax (acc : Option Nat) (v : Nat) : Option Nat :=
  some (acc.elim v (fun m => max m v))

theorem foldl_optMin_some (rest : List Nat) : ∀ m : Nat,
    rest.foldl optMin (some m) = some (rest.foldl min m) := by
  induction rest with
  | nil =>
    intro m
    rfl
  | cons y rest ih =>
    intro m
    simp only [List.foldl_cons]
    rw [show optMin (some m) y = some (min m y) from rfl]
    exact ih (min m y)

theorem foldl_optMax_some (rest : List Nat) : ∀ m : Nat,
    rest.foldl optMax (some m) = some (rest.foldl max m) := by
  induction rest with
  | nil =>
    intro m
    rfl
  | cons y rest ih =>
    intro m
    simp only [List.foldl_cons]
    rw [show optMax (some m) y = some (max m y) from rfl]
    exact ih (max m y)

theorem aggMin_eq_foldl (xs : List Nat) : aggMin xs = xs.foldl optMin none := by
  cases xs with
  | nil => rfl
  | cons x rest =>
    simp only [aggMin, List.foldl_cons]
    rw [show optMin none x = some x from rfl, foldl_optMin_some]

theorem aggMax_eq_foldl (xs : List Nat) : aggMax xs = xs.foldl optMax none := by
  cases xs with
  | nil => rfl
  | cons x rest =>
    simp only [aggMax, List.foldl_cons]
    rw [show optMax none x = some x from rfl, foldl_optMax_some]

theorem aggMin_perm (xs ys : List Nat) (h : xs.Perm ys) : aggMin xs = aggMin ys := by
  rw [aggMin_eq_foldl, aggMin_eq_foldl]
  refine h.foldl_eq' ?_ none
  intro x _ y _ z
  cases z with
  | none => simp [optMin, Option.elim, Nat.min_comm]
  | some m => simp [optMin, Option.elim]; omega

theorem aggMax_perm (xs ys : List Nat) (h : xs.Perm ys) : aggMax xs = aggMax ys := by
  rw [aggMax_eq_foldl, aggMax_eq_foldl]
  refine h.foldl_eq' ?_ none
  intro x _ y _ z
  cases z with
  | none => simp [optMax, Option.elim, Nat.max_comm]
  | some m => simp [optMax, Option.elim]; omega

/-- C7 counterexample: two records of the same agency with different
display names and distinct feed types (so no exact duplicate triple
exists); swapping their input order changes the resolved display name of
the agency, so get_agencies is not order-independent as claimed. -/
theorem c7_counterexample :
    (⟨"a", "X", none, none, "vp", "t1", 0, 0, 0⟩ : FeedRecord).feed_type ≠
      (⟨"a", "Y", none, none, "tu", "t2", 0, 0, 0⟩ : FeedRecord).feed_type ∧
    List.Perm
      [(⟨"a", "X", none, none, "vp", "t1", 0, 0, 0⟩ : FeedRecord),
       ⟨"a", "Y", none, none, "tu", "t2", 0, 0, 0⟩]
      [⟨"a", "Y", none, none, "tu", "t2", 0, 0, 0⟩,
       ⟨"a", "X", none, none, "vp", "t1", 0, 0, 0⟩] ∧
    (alookup (get_agencies
        [⟨"a", "X", none, none, "vp", "t1", 0, 0, 0⟩,
         ⟨"a", "Y", none, none, "tu", "t2", 0, 0, 0⟩]) "a").map AgencyInfo.name =
      some "X" ∧
    (alookup (get_agencies
        [⟨"a", "Y", none, none, "tu", "t2", 0, 0, 0⟩,
         ⟨"a", "X", none, none, "vp", "t1", 0, 0, 0⟩]) "a").map AgencyInfo.name =
      some "Y" ∧
    ("X" : String) ≠ "Y" :=
  ⟨by decide, List.Perm.swap _ _ _, by decide, by decide, by decide⟩

/-- C7 (amended): building the index from any permutation of the same
records yields the same resolved agency/system/feed map (compared
extensionally: names, aggregate date bounds, and feed slots at every
key), provided that for every occurring exact (agency, system,
feed_type) triple the subsequence of records carrying it is the same in
both orders (the last-write-wins qualification), and that records
sharing an agency (respectively an agency and system) agree on the
display name — display names are first-write-wins, so without that
agreement a permutation can change them. -/
theorem c7_order_independence (l l' : List FeedRecord)
    (hperm : l.Perm l')
    (hname : ∀ r1 ∈ l, ∀ r2 ∈ l, r1.agency_id = r2.agency_id →
       r1.agency_name = r2.agency_name)
    (hsysname : ∀ r1 ∈ l, ∀ r2 ∈ l, r1.agency_id = r2.agency_id →
       r1.system_id = r2.system_id → r1.system_name = r2.system_name)
    (hdup : ∀ r ∈ l, recsForTriple l r.agency_id r.system_id r.feed_type =
       recsForTriple l' r.agency_id r.system_id r.feed_type)
    (aid : String) (sid : Option String) (ft : String) :
    ((alookup (get_agencies l) aid).map AgencyInfo.name =
       (alookup (get_agencies l') aid).map AgencyInfo.name) ∧
    ((alookup (get_agencies l) aid).map AgencyInfo.date_min =
       (alookup (get_agencies l') aid).map AgencyInfo.date_min) ∧
    ((alookup (get_agencies l) aid).map AgencyInfo.date_max =
       (alookup (get_agencies l') aid).map AgencyInfo.date_max) ∧
    ((sysLookup l aid sid).map SystemInfo.name =
       (sysLookup l' aid sid).map SystemInfo.name) ∧
    ((sysLookup l aid sid).map SystemInfo.date_min =
       (sysLookup l' aid sid).map SystemInfo.date_min) ∧
    ((sysLookup l aid sid).map SystemInfo.date_max =
       (sysLookup l' aid sid).map SystemInfo.date_max) ∧
    (feedLookup l aid sid ft = feedLookup l' aid sid ft) := by
  have hpa : (recsForAgency l aid).Perm (recsForAgency l' aid) := hperm.filter _
  have hps : (recsForSystem l aid sid).Perm (recsForSystem l' aid sid) := hperm.filter _
  refine ⟨?_, ?_, ?_, ?_, ?_, ?_, ?_⟩
  · rw [agencyLookup_name_char, agencyLookup_name_char]
    cases hx : recsForAgency l aid with
    | nil =>
      rw [hx] at hpa
      rw [← hpa.nil_eq]
    | cons x xs =>
      rw [hx] at hpa
      cases hy : recsForAgency l' aid with
      | nil =>
        rw [hy] at hpa
        exact absurd hpa.eq_nil (by simp)
      | cons y ys =>
        rw [hy] at hpa
        have hxm := List.mem_filter.mp (hx ▸ List.mem_cons_self x xs)
        have hym := List.mem_filter.mp (hy ▸ List.mem_cons_self y ys)
        have hxl : x ∈ l := hxm.1
        have hyl : y ∈ l := hperm.mem_iff.mpr hym.1
        have hxa : x.agency_id = aid := of_decide_eq_true hxm.2
        have hya : y.agency_id = aid := of_decide_eq_true hym.2
        have := hname x hxl y hyl (by rw [hxa, hya])
        simp [this]
  · rw [agencyLookup_dmin_char, agencyLookup_dmin_char]
    exact aggMin_perm _ _ (hpa.map _)
  · rw [agencyLookup_dmax_char, agencyLookup_dmax_char]
    exact aggMax_perm _ _ (hpa.map _)
  · rw [sysLookup_name_char, sysLookup_name_char]
    cases hx : recsForSystem l aid sid with
    | nil =>
      rw [hx] at hps
      rw [← hps.nil_eq]
    | cons x xs =>
      rw [hx] at hps
      cases hy : recsForSystem l' aid sid with
      | nil =>
        rw [hy] at hps
        exact absurd hps.eq_nil (by simp)
      | cons y ys =>
        rw [hy] at hps
        have hxm := List.mem_filter.mp (hx ▸ List.mem_cons_self x xs)
        have hym := List.mem_filter.mp (hy ▸ List.mem_cons_self y ys)
        have hxl : x ∈ l := hxm.1
        have hyl : y ∈ l := hperm.mem_iff.mpr hym.1
        have hxa := of_decide_eq_true hxm.2
        have hya := of_decide_eq_true hym.2
        have := hsysname x hxl y hyl (by rw [hxa.1, hya.1]) (by rw [hxa.2, hya.2])
        simp [this]
  · rw [sysLookup_dmin_char, sysLookup_dmin_char]
    exact aggMin_perm _ _ (hps.map _)
  · rw [sysLookup_dmax_char, sysLookup_dmax_char]
    exact aggMax_perm _ _ (hps.map _)
  · rw [feedLookup_char, feedLookup_char]
    by_cases hex : ∃ r ∈ l, r.agency_id = aid ∧ r.system_id = sid ∧ r.feed_type = ft
    · obtain ⟨r, hr, h1, h2, h3⟩ := hex
      have hd := hdup r hr
      rw [h1, h2, h3] at hd
      rw [hd]
    · have h1 : recsForTriple l aid sid ft = [] := by
        apply List.filter_eq_nil_iff.mpr
        intro r hr
        simp only [decide_eq_true_eq]
        intro hc
        exact hex ⟨r, hr, hc⟩
      have h2 : recsForTriple l' aid sid ft = [] := by
        apply List.filter_eq_nil_iff.mpr
        intro r hr
        simp only [decide_eq_true_eq]
        intro hc
        exact hex ⟨r, hperm.mem_iff.mpr hr, hc⟩
      rw [h1, h2]

/-- Witness for C7 at a concrete two-record swap of distinct agencies. -/
theorem c7_order_independence_witness :
    (alookup (get_agencies
        [(⟨"a", "A1", none, none, "vp", "t1", 0, 5, 9⟩ : FeedRecord),
         ⟨"b", "B1", none, none, "vp", "t2", 2, 3, 4⟩]) "a").map AgencyInfo.name =
      (alookup (get_agencies
        [(⟨"b", "B1", none, none, "vp", "t2", 2, 3, 4⟩ : FeedRecord),
         ⟨"a", "A1", none, none, "vp", "t1", 0, 5, 9⟩]) "a").map AgencyInfo.name :=
  (c7_order_independence
    [⟨"a", "A1", none, none, "vp", "t1", 0, 5, 9⟩,
     ⟨"b", "B1", none, none, "vp", "t2", 2, 3, 4⟩]
    [⟨"b", "B1", none, none, "vp", "t2", 2, 3, 4⟩,
     ⟨"a", "A1", none, none, "vp", "t1", 0, 5, 9⟩]
    (List.Perm.swap _ _ _) (by decide) (by decide) (by decide)
    "a" none "vp").1

/-- Lexicographic byte-wise comparison of two code-point lists, the order
Python's sorted() uses on strings. -/
def lexLe : List Nat → List Nat → Bool
  | [], _ => true
  | _ :: _, [] => false
  | a :: as, b :: bs => if a < b then true else if b < a then false else lexLe as bs

/-- Code points of a string. -/
def strCodes (s : String) : List Nat :=
  s.data.map Char.toNat

/-- Python string ordering (code-point lexicographic), as a relation. -/
def strLe (s t : String) : Prop :=
  lexLe (strCodes s) (strCodes t) = true

instance : DecidableRel strLe := fun s t => by
  unfold strLe
  infer_instance

theorem lexLe_total : ∀ xs ys : List Nat, lexLe xs ys = true ∨ lexLe ys xs = true := by
  intro xs
  induction xs with
  | nil =>
    intro ys
    exact Or.inl rfl
  | cons a as ih =>
    intro ys
    cases ys with
    | nil => exact Or.inr rfl
    | cons b bs =>
      by_cases hab : a < b
      · exact Or.inl (by simp [lexLe, hab])
      · by_cases hba : b < a
        · exact Or.inr (by simp [lexLe, hba, hab])
        · have : ¬b < a := hba
          rcases ih bs with h | h
          · exact Or.inl (by simp [lexLe, hab, hba, h])
          · exact Or.inr (by simp [lexLe, hab, hba, h])

theorem lexLe_trans : ∀ xs ys zs : List Nat,
    lexLe xs ys = true → lexLe ys zs = true → lexLe xs zs = true := by
  intro xs
  induction xs with
  | nil =>
    intro ys zs _ _
    rfl
  | cons a as ih =>
    intro ys zs h1 h2
    cases ys with
    | nil => cases h1
    | cons b bs =>
      cases zs with
      | nil => cases h2
      | cons c cs =>
        simp only [lexLe] at h1 h2 ⊢
        rcases Nat.lt_trichotomy a b with hab | hab | hab
        · rcases Nat.lt_trichotomy b c with hbc | hbc | hbc
          · rw [if_pos (show a < c by omega)]
          · subst hbc
            rw [if_pos hab]
          · rw [if_neg (show ¬b < c by omega), if_pos hbc] at h2
            cases h2
        · subst hab
          have haa : ¬a < a := by omega
          rw [if_neg haa, if_neg haa] at h1
          rcases Nat.lt_trichotomy a c with hac | hac | hac
          · rw [if_pos hac]
          · subst hac
            rw [if_neg haa, if_neg haa] at h2
            rw [if_neg haa, if_neg haa]
            exact ih bs cs h1 h2
          · rw [if_neg (show ¬a < c by omega), if_pos hac] at h2
            cases h2
        · rw [if_neg (show ¬a < b by omega), if_pos hab] at h1
          cases h1

instance : IsTotal String strLe :=
  ⟨fun a b => lexLe_total (strCodes a) (strCodes b)⟩

instance : IsTrans String strLe :=
  ⟨fun a b c => lexLe_trans (strCodes a) (strCodes b) (strCodes c)⟩

/-- Python truthiness of "sid or 'default'" at download_data.py line 251:
None and the empty string are falsy. -/
def sidOrDefault (sid : Option String) : String :=
  match sid with
  | none => "default"
  | some s => if s = "" then "default" else s

/-- Compound key "system:feed_type" of download_data.py line 251. -/
def feedKey (sid : Option String) (ft : String) : String :=
  sidOrDefault sid ++ ":" ++ ft

/-- Resolution of systems_to_download (download_data.py lines 217-240):
none for an unknown agency or unknown system (the source prints an error
and returns the empty dict), otherwise the system entries in scope. -/
def systemsToDownload (inventory : List FeedRecord) (aid : String)
    (sid : Option String) : Option (List (Option String × SystemInfo)) :=
  match alookup (get_agencies inventory) aid with
  | none => none
  | some a =>
      match sid with
      | none => some a.systems
      | some s =>
          match alookup a.systems (some s) with
          | none => none
          | some sysInfo => some [(some s, sysInfo)]

/-- The all_feeds dict of download_data.py lines 247-252.  The two nested
for loops visit the (system, feed) pairs in insertion order, which is the
flattened order below, and assign each into the dict under its compound
key. -/
def collectFeeds (systems : List (Option String × SystemInfo)) :
    List (String × (Option String × String × FeedRecord)) :=
  (systems.flatMap (fun p => p.2.feeds.map (fun q => (p.1, q.1, q.2)))).foldl
    (fun acc item => dictSet acc (feedKey item.1 item.2.1) item) []

/-- The sorted compound keys "sorted(all_feeds.keys())" of
download_data.py lines 264 and 279.  Keys of a dict are distinct, so any
stable comparison sort yields this insertion sort's result. -/
def sortedKeys (af : List (String × (Option String × String × FeedRecord))) :
    List String :=
  List.insertionSort strLe (af.map Prod.fst)

/-- The feeds of the plan, in the enumeration order of the download loop
(download_data.py lines 279-292): sorted compound keys, each paired with
its all_feeds entry. -/
def planFeeds (inventory : List FeedRecord) (aid : String) (sid : Option String) :
    List (String × (Option String × String × FeedRecord)) :=
  match systemsToDownload inventory aid sid with
  | none => []
  | some systems =>
      (sortedKeys (collectFeeds systems)).filterMap
        (fun k => (alookup (collectFeeds systems) k).map (fun v => (k, v)))

/-- The enumerated compound keys of the plan. -/
def planKeys (inventory : List FeedRecord) (aid : String) (sid : Option String) :
    List String :=
  (planFeeds inventory aid sid).map Prod.fst

/-- Per-feed size estimate of download_data.py lines 266-269:
avg_bytes_per_day = total_bytes // max(days_available, 1), times the
number of requested days. -/
def estimatedSize (feed : FeedRecord) (s e : Nat) : Nat :=
  feed.total_bytes / max (numDays feed.date_min feed.date_max) 1 * numDays s e

/-- Size estimate as the spec words it: total_bytes divided by
max(1, day_count(date_min, date_max)), times day_count(start, end),
where day_count is the length of the inclusive day sequence. -/
def specEstimatedSize (feed : FeedRecord) (s e : Nat) : Nat :=
  feed.total_bytes / max 1 (inclusiveDays feed.date_min feed.date_max).length
    * (inclusiveDays s e).length

/-- The displayed plan of download_data.py lines 264-273: each enumerated
feed key with its estimated size. -/
def planEstimates (inventory : List FeedRecord) (aid : String) (sid : Option String)
    (s e : Nat) : List (String × Nat) :=
  (planFeeds inventory aid sid).map (fun kf => (kf.1, estimatedSize kf.2.2.2 s e))

/-- The per-day targets of one planned feed, tagged with its compound
key: download_feed_data is called with the feed's type and token and
iterates the inclusive day range. -/
def dayTargets (kf : String × (Option String × String × FeedRecord)) (s e : Nat) :
    List (String × Target) :=
  (inclusiveDays s e).map (fun d => (kf.1, ⟨kf.2.2.1, kf.2.2.2.base64url, d⟩))

/-- The full target sequence of an agency plan: feeds in sorted key
order, the days of each feed expanded in place (download_data.py lines
279-292 together with the loop of download_feed_data). -/
def planTargets (inventory : List FeedRecord) (aid : String) (sid : Option String)
    (s e : Nat) : List (String × Target) :=
  (planFeeds inventory aid sid).flatMap (fun kf => dayTargets kf s e)

theorem keys_dictSet {α β : Type} [DecidableEq α] (l : List (α × β)) (a : α) (b : β) :
    (dictSet l a b).map Prod.fst =
      if (alookup l a).isSome then l.map Prod.fst else l.map Prod.fst ++ [a] := by
  induction l with
  | nil => simp [dictSet, alookup]
  | cons p rest ih =>
    obtain ⟨k, v⟩ := p
    by_cases h : a = k
    · subst h
      simp [dictSet, alookup]
    · by_cases h2 : (alookup rest a).isSome <;>
        simp [dictSet, alookup, h, ih, h2]

theorem alookup_isSome_of_mem_keys {α β : Type} [DecidableEq α] (l : List (α × β)) (a : α)
    (h : a ∈ l.map Prod.fst) : (alookup l a).isSome := by
  induction l with
  | nil => cases h
  | cons p rest ih =>
    obtain ⟨k, v⟩ := p
    by_cases hk : a = k
    · simp [alookup, hk]
    · rw [List.map_cons] at h
      rcases List.mem_cons.mp h with h1 | h1
      · exact absurd h1 hk
      · simp [alookup, hk, ih h1]

theorem not_mem_keys_of_alookup_none {α β : Type} [DecidableEq α] (l : List (α × β))
    (a : α) (h : alookup l a = none) : a ∉ l.map Prod.fst := by
  intro hm
  have h2 := alookup_isSome_of_mem_keys l a hm
  rw [h] at h2
  cases h2

theorem nodup_keys_dictSet {α β : Type} [DecidableEq α] (l : List (α × β)) (a : α) (b : β)
    (h : (l.map Prod.fst).Nodup) : ((dictSet l a b).map Prod.fst).Nodup := by
  rw [keys_dictSet]
  by_cases h2 : (alookup l a).isSome
  · simpa [h2] using h
  · have hnone : alookup l a = none := Option.not_isSome_iff_eq_none.mp h2
    simp only [h2, Bool.false_eq_true, if_false]
    rw [List.nodup_append]
    refine ⟨h, List.nodup_singleton a, ?_⟩
    intro x hx hx2
    rw [List.mem_singleton] at hx2
    subst hx2
    exact not_mem_keys_of_alookup_none l x hnone hx

theorem nodup_keys_foldl_dictSet {γ α β : Type} [DecidableEq α]
    (f : γ → α) (g : γ → β) (items : List γ) :
    ∀ acc : List (α × β), (acc.map Prod.fst).Nodup →
      ((items.foldl (fun ac it => dictSet ac (f it) (g it)) acc).map Prod.fst).Nodup := by
  induction items with
  | nil =>
    intro acc h
    exact h
  | cons it items ih =>
    intro acc h
    simp only [List.foldl_cons]
    exact ih _ (nodup_keys_dictSet _ _ _ h)

theorem nodup_keys_collectFeeds (systems : List (Option String × SystemInfo)) :
    ((collectFeeds systems).map Prod.fst).Nodup := by
  unfold collectFeeds
  exact nodup_keys_foldl_dictSet
    (fun item : Option String × String × FeedRecord => feedKey item.1 item.2.1)
    (fun item => item) _ [] (by simp)

theorem filterMap_lookup_map_fst {β : Type} (af : List (String × β)) :
    ∀ ks : List String, (∀ k ∈ ks, (alookup af k).isSome) →
      (ks.filterMap (fun k => (alookup af k).map (fun v => (k, v)))).map Prod.fst = ks := by
  intro ks
  induction ks with
  | nil =>
    intro _
    rfl
  | cons k ks ih =>
    intro h
    have hk := h k (List.mem_cons_self k ks)
    rcases Option.isSome_iff_exists.mp hk with ⟨v, hv⟩
    simp only [List.filterMap_cons, hv, Option.map_some', List.map_cons]
    rw [ih (fun k2 hk2 => h k2 (List.mem_cons_of_mem k hk2))]

theorem planKeys_eq_sortedKeys (inventory : List FeedRecord) (aid : String)
    (sid : Option String) (systems : List (Option String × SystemInfo))
    (h : systemsToDownload inventory aid sid = some systems) :
    planKeys inventory aid sid = sortedKeys (collectFeeds systems) := by
  unfold planKeys planFeeds
  rw [h]
  apply filterMap_lookup_map_fst
  intro k hk
  apply alookup_isSome_of_mem_keys
  unfold sortedKeys at hk
  exact (List.perm_insertionSort strLe _).mem_iff.mp hk

theorem map_const_replicate {α β : Type} (l : List α) (b : β) :
    l.map (fun _ => b) = List.replicate l.length b := by
  induction l with
  | nil => rfl
  | cons x l ih => simp [List.replicate, ih]

theorem dayTargets_map_fst (kf : String × (Option String × String × FeedRecord))
    (s e : Nat) :
    (dayTargets kf s e).map Prod.fst = List.replicate (numDays s e) kf.1 := by
  unfold dayTargets
  rw [List.map_map]
  have hlen : (inclusiveDays s e).length = numDays s e := by
    simp [inclusiveDays, numDays]
  rw [← hlen]
  exact map_const_replicate _ _

theorem map_fst_flatMap_dayTargets
    (pf : List (String × (Option String × String × FeedRecord))) (s e : Nat) :
    (pf.flatMap (fun kf => dayTargets kf s e)).map Prod.fst =
      (pf.map Prod.fst).flatMap (fun k => List.replicate (numDays s e) k) := by
  induction pf with
  | nil => rfl
  | cons kf pf ih =>
    simp only [List.flatMap_cons, List.map_append, List.map_cons]
    rw [ih, dayTargets_map_fst]

theorem filter_flatMap_dayTargets_not_mem
    (pf : List (String × (Option String × String × FeedRecord))) (s e : Nat)
    (k : String) (h : k ∉ pf.map Prod.fst) :
    (pf.flatMap (fun kf => dayTargets kf s e)).filter (fun p => decide (p.1 = k)) = [] := by
  induction pf with
  | nil => rfl
  | cons kf pf ih =>
    simp only [List.flatMap_cons, List.filter_append]
    have hne : kf.1 ≠ k := by
      intro he
      exact h (by simp [he])
    have h1 : (dayTargets kf s e).filter (fun p => decide (p.1 = k)) = [] := by
      apply List.filter_eq_nil_iff.mpr
      intro p hp
      rcases List.mem_map.mp hp with ⟨d, _, rfl⟩
      simp [hne]
    rw [h1]
    simp only [List.nil_append]
    exact ih (fun hm => h (by simp [hm]))

theorem filter_flatMap_dayTargets_mem
    (pf : List (String × (Option String × String × FeedRecord))) (s e : Nat)
    (k : String) (hnd : (pf.map Prod.fst).Nodup) (hm : k ∈ pf.map Prod.fst) :
    ((pf.flatMap (fun kf => dayTargets kf s e)).filter
        (fun p => decide (p.1 = k))).map (fun p => p.2.date) = inclusiveDays s e := by
  induction pf with
  | nil => cases hm
  | cons kf pf ih =>
    simp only [List.flatMap_cons, List.filter_append, List.map_append]
    simp only [List.map_cons] at hm hnd
    by_cases hk : kf.1 = k
    · have hblock : (dayTargets kf s e).filter (fun p => decide (p.1 = k)) =
          dayTargets kf s e := by
        apply List.filter_eq_self.mpr
        intro p hp
        rcases List.mem_map.mp hp with ⟨d, _, rfl⟩
        simp [hk]
      rw [hblock]
      have hrest : k ∉ pf.map Prod.fst := by
        rw [← hk]
        exact (List.nodup_cons.mp hnd).1
      rw [filter_flatMap_dayTargets_not_mem pf s e k hrest]
      simp only [List.map_nil, List.append_nil]
      unfold dayTargets
      rw [List.map_map]
      exact List.map_id _
    · have hm2 : k ∈ pf.map Prod.fst := by
        rcases List.mem_cons.mp hm with h1 | h1
        · exact absurd h1.symm hk
        · exact h1
      have hblock : (dayTargets kf s e).filter (fun p => decide (p.1 = k)) = [] := by
        apply List.filter_eq_nil_iff.mpr
        intro p hp
        rcases List.mem_map.mp hp with ⟨d, _, rfl⟩
        simp [hk]
      rw [hblock]
      simp only [List.map_nil, List.nil_append]
      exact ih (List.nodup_cons.mp hnd).2 hm2

/-- C4 counterexample: an agency with systems "a" and "b" whose feed
types are "z" and "y".  The code enumerates by the compound key
"system:feed_type", giving keys ["a:z", "b:y"] and feed types in the
order ["z", "y"], which is not feed_type-first sorted order ("y" sorts
strictly before "z"). -/
theorem c4_counterexample :
    planKeys
      [⟨"a", "A", some "a", some "SA", "z", "tz", 0, 0, 0⟩,
       ⟨"a", "A", some "b", some "SB", "y", "ty", 0, 0, 0⟩] "a" none =
      ["a:z", "b:y"] ∧
    (planFeeds
      [⟨"a", "A", some "a", some "SA", "z", "tz", 0, 0, 0⟩,
       ⟨"a", "A", some "b", some "SB", "y", "ty", 0, 0, 0⟩] "a" none).map
        (fun kf => kf.2.2.1) = ["z", "y"] ∧
    strLe "y" "z" ∧ ("y" : String) ≠ "z" :=
  ⟨by decide, by decide, by decide, by decide⟩

/-- C4 (amended): the plan enumerates feeds in ascending order of the
compound key "system:feed_type" (system id first, then feed type), with
distinct keys; the target sequence is grouped by feed, all days of one
feed contiguous, in that key order; within each feed the days are exactly
the inclusive range, in strictly ascending order. -/
theorem c4_plan_order (inventory : List FeedRecord) (aid : String) (sid : Option String)
    (s e : Nat) :
    List.Pairwise strLe (planKeys inventory aid sid) ∧
    (planKeys inventory aid sid).Nodup ∧
    ((planTargets inventory aid sid s e).map Prod.fst =
       (planKeys inventory aid sid).flatMap (fun k => List.replicate (numDays s e) k)) ∧
    (∀ k ∈ planKeys inventory aid sid,
       ((planTargets inventory aid sid s e).filter
           (fun p => decide (p.1 = k))).map (fun p => p.2.date) = inclusiveDays s e) ∧
    List.Pairwise (· < ·) (inclusiveDays s e) := by
  have hkeys : List.Pairwise strLe (planKeys inventory aid sid) ∧
      (planKeys inventory aid sid).Nodup := by
    cases hs : systemsToDownload inventory aid sid with
    | none =>
      have : planKeys inventory aid sid = [] := by
        unfold planKeys planFeeds
        rw [hs]
        rfl
      rw [this]
      exact ⟨List.Pairwise.nil, List.nodup_nil⟩
    | some systems =>
      rw [planKeys_eq_sortedKeys inventory aid sid systems hs]
      constructor
      · exact List.sorted_insertionSort strLe _
      · exact (List.perm_insertionSort strLe _).nodup_iff.mpr
          (nodup_keys_collectFeeds systems)
  refine ⟨hkeys.1, hkeys.2, ?_, ?_, ?_⟩
  · unfold planTargets planKeys
    exact map_fst_flatMap_dayTargets _ s e
  · intro k hk
    unfold planTargets
    exact filter_flatMap_dayTargets_mem _ s e k hkeys.2 hk
  · exact List.pairwise_lt_range' s _

/-- Witness for C4: the days of feed key "a:z" in the concrete plan are
exactly the inclusive range 3..4. -/
theorem c4_plan_order_witness :
    ((planTargets
        [⟨"a", "A", some "a", some "SA", "z", "tz", 0, 0, 0⟩,
         ⟨"a", "A", some "b", some "SB", "y", "ty", 0, 0, 0⟩] "a" none 3 4).filter
        (fun p => decide (p.1 = "a:z"))).map (fun p => p.2.date) =
      inclusiveDays 3 4 :=
  (c4_plan_order
    [⟨"a", "A", some "a", some "SA", "z", "tz", 0, 0, 0⟩,
     ⟨"a", "A", some "b", some "SB", "y", "ty", 0, 0, 0⟩] "a" none 3 4).2.2.2.1
    "a:z" (by decide)

/-- C5: the per-feed size estimate of the plan equals
total_bytes / max(1, day_count(date_min, date_max)) * day_count(start,
end) for every feed and window, and the single-day scenario (agency A,
one system-less vehicle_positions feed covering 2026-01-01..2026-01-31
with 3100 total bytes, requesting 2026-01-10) is estimated at
3100 / 31 * 1 = 100 bytes. -/
theorem c5_size_estimate :
    (∀ (feed : FeedRecord) (s e : Nat),
       estimatedSize feed s e = specEstimatedSize feed s e) ∧
    planEstimates
      [⟨"A", "Agency A", none, none, "vehicle_positions", "tokA",
        toOrdinal 2026 1 1, toOrdinal 2026 1 31, 3100⟩] "A" none
      (toOrdinal 2026 1 10) (toOrdinal 2026 1 10) =
      [("default:vehicle_positions", 100)] := by
  constructor
  · intro feed s e
    unfold estimatedSize specEstimatedSize numDays inclusiveDays
    rw [List.length_range', List.length_range', Nat.max_comm]
  · decide
